import Mathlib

/-!
Verification of the `date-range-rs` library: a shallow embedding of the
period-range engine (`src/daterange/*.rs`) and its calendar arithmetic
(`src/dateutils/date_utils.rs`), together with proofs and refutations of
the specification claims.

Civil dates (chrono `NaiveDate`) are modelled as year/month/day triples of
integers in the proleptic Gregorian calendar, with a validity predicate.
`toRd` sends a date to its position on the day line ("rata die"); chrono's
total order, day differences (`Duration::num_days`) and single-day steps
(`succ_opt`/`pred_opt`/`± Duration::days(1)`) are modelled through it.
Rust `fn` pointers stored in `DateRange` are defunctionalised into the
closed `NavKind` tag, one tag per period family, exactly the set of
strategy pairs the crate ever stores.
-/

namespace DateRangeRs

/-- Civil (proleptic-Gregorian) calendar date, the model of chrono
`NaiveDate`: a year/month/day triple. -/
structure Date where
  year : Int
  month : Int
  day : Int
deriving DecidableEq, Repr

/-- Gregorian leap-year rule used by chrono: divisible by 4 and not by 100,
or divisible by 400. -/
def isLeapYear (y : Int) : Bool :=
  (y % 4 == 0 && y % 100 != 0) || y % 400 == 0

/-- Number of days in a month of a given year (the calendar fact behind
chrono's month lengths); months outside 1..12 get the junk value 0. -/
def daysInMonth (y m : Int) : Int :=
  if m = 1 then 31
  else if m = 2 then (if isLeapYear y then 29 else 28)
  else if m = 3 then 31
  else if m = 4 then 30
  else if m = 5 then 31
  else if m = 6 then 30
  else if m = 7 then 31
  else if m = 8 then 31
  else if m = 9 then 30
  else if m = 10 then 31
  else if m = 11 then 30
  else if m = 12 then 31
  else 0

/-- Validity of a triple as a calendar date: exactly the triples for which
chrono `NaiveDate::from_ymd_opt` returns `Some`. -/
def Date.Valid (d : Date) : Prop :=
  1 ≤ d.month ∧ d.month ≤ 12 ∧ 1 ≤ d.day ∧ d.day ≤ daysInMonth d.year d.month

instance (d : Date) : Decidable d.Valid := by
  unfold Date.Valid; infer_instance

/-- One extra day in leap years, used by the cumulative month table. -/
def leapDay (y : Int) : Int := if isLeapYear y then 1 else 0

/-- Days strictly before the first day of month `m` within year `y`
(cumulative month lengths). -/
def daysBeforeMonth (y m : Int) : Int :=
  if m = 1 then 0
  else if m = 2 then 31
  else if m = 3 then 59 + leapDay y
  else if m = 4 then 90 + leapDay y
  else if m = 5 then 120 + leapDay y
  else if m = 6 then 151 + leapDay y
  else if m = 7 then 181 + leapDay y
  else if m = 8 then 212 + leapDay y
  else if m = 9 then 243 + leapDay y
  else if m = 10 then 273 + leapDay y
  else if m = 11 then 304 + leapDay y
  else if m = 12 then 334 + leapDay y
  else 0

/-- Days strictly before January 1 of year `y`, counted from January 1 of
year 1 (proleptic Gregorian; `Int./` is Euclidean division, which is floor
division for these positive divisors, so the formula is correct for
negative years as well). -/
def daysBeforeYear (y : Int) : Int :=
  365 * (y - 1) + (y - 1) / 4 - (y - 1) / 100 + (y - 1) / 400

/-- Rata-die position of a date on the day line. This models chrono's
internal day count: comparisons of `NaiveDate`s are chronological and
`Duration::num_days` between two dates is the difference of their `toRd`
values. -/
def toRd (d : Date) : Int :=
  daysBeforeYear d.year + daysBeforeMonth d.year d.month + d.day

/-- Chronological order on dates (chrono `NaiveDate : Ord`). -/
def Date.le (a b : Date) : Prop := toRd a ≤ toRd b

/-- Strict chronological order on dates. -/
def Date.lt (a b : Date) : Prop := toRd a < toRd b

instance (a b : Date) : Decidable (Date.le a b) := by
  unfold Date.le; infer_instance

instance (a b : Date) : Decidable (Date.lt a b) := by
  unfold Date.lt; infer_instance

/-- Next calendar day (chrono `succ_opt().unwrap()`, or adding
`Duration::days(1)`). -/
def Date.succ (d : Date) : Date :=
  if d.day < daysInMonth d.year d.month then ⟨d.year, d.month, d.day + 1⟩
  else if d.month < 12 then ⟨d.year, d.month + 1, 1⟩
  else ⟨d.year + 1, 1, 1⟩

/-- Previous calendar day (chrono `pred_opt().unwrap()`, or subtracting
`Duration::days(1)`). -/
def Date.pred (d : Date) : Date :=
  if 1 < d.day then ⟨d.year, d.month, d.day - 1⟩
  else if 1 < d.month then ⟨d.year, d.month - 1, daysInMonth d.year (d.month - 1)⟩
  else ⟨d.year - 1, 12, 31⟩

/-- Shift a date by `n` days (chrono `± Duration::days(n)`), as iterated
single-day steps. -/
def addDaysI (d : Date) (n : Int) : Date :=
  if 0 ≤ n then Date.succ^[n.toNat] d else Date.pred^[(-n).toNat] d

/-! ### Calendar arithmetic primitives (`src/dateutils/date_utils.rs`) -/

/-- First day of the month of the given date (`first_day_of_month`). -/
def first_day_of_month (d : Date) : Date := ⟨d.year, d.month, 1⟩

/-- Last day of the month of the given date (`last_day_of_month`): the
first day of the next month, stepped back one day, exactly as in the
source. -/
def last_day_of_month (d : Date) : Date :=
  let next_month : Int := if d.month = 12 then 1 else d.month + 1
  let next_year : Int := if d.month = 12 then d.year + 1 else d.year
  Date.pred ⟨next_year, next_month, 1⟩

/-- One pass of the `while month > 12 { month -= 12; year += 1 }` loop of
`add_months`, run for at most `k` iterations. The fuel passed by
`add_months` always suffices (see `normUpN_le`), so this computes the
loop's result. -/
def normUpN : Nat → Int → Int → Int × Int
  | 0, y, m => (y, m)
  | k + 1, y, m => if 12 < m then normUpN k (y + 1) (m - 12) else (y, m)

/-- One pass of the `while month < 1 { month += 12; year -= 1 }` loop of
`add_months`, run for at most `k` iterations. -/
def normDownN : Nat → Int → Int → Int × Int
  | 0, y, m => (y, m)
  | k + 1, y, m => if m < 1 then normDownN k (y - 1) (m + 12) else (y, m)

/-- Add `months` to a date (`add_months`): normalise `month + months` into
1..12 carrying into the year (the two `while` loops), then clamp the day
to the target month's last day, computed through `last_day_of_month` as in
the source. -/
def add_months (d : Date) (months : Int) : Date :=
  let m0 := d.month + months
  let p := normUpN (m0 - 12).toNat d.year m0
  let q := normDownN (1 - p.2).toNat p.1 p.2
  ⟨q.1, q.2, min d.day (last_day_of_month ⟨q.1, q.2, 1⟩).day⟩

/-- Subtract `months` from a date (`subtract_months`). -/
def subtract_months (d : Date) (months : Int) : Date := add_months d (-months)

/-- Add `years` to a date (`add_years`). -/
def add_years (d : Date) (years : Int) : Date := add_months d (years * 12)

/-- Subtract `years` from a date (`subtract_years`). -/
def subtract_years (d : Date) (years : Int) : Date := subtract_months d (years * 12)

/-! ### The generic range (`src/daterange/date_range.rs`)

The Rust struct stores optional function pointers `prior_fn`/`next_fn`.
The crate only ever stores the strategy pairs of its five strategy-bearing
families (weekly and bi-weekly ranges are built with `DateRange::new` and
use the default length-shift), so the pointers are defunctionalised into
the `NavKind` tag and dispatch happens in `DateRange.prior`/`DateRange.next`. -/

/-- Tag identifying the `(prior_fn, next_fn)` pair stored in a range. -/
inductive NavKind where
  | annual
  | semiAnnual
  | quarterly
  | monthly
  | semiMonthly
deriving DecidableEq, Repr

/-- Model of the Rust `DateRange` struct: bounds, the cached inclusive
length, the optional strategy pair and the optional anchor day. -/
structure DateRange where
  start_date : Date
  end_date : Date
  len : Int
  nav : Option NavKind
  start_day : Option Int
deriving DecidableEq, Repr

/-- Constructor `DateRange::new`: no strategy, no anchor day; `len` is the
inclusive day count `(end - start).num_days() + 1`. -/
def DateRange.new (s e : Date) : DateRange :=
  ⟨s, e, toRd e - toRd s + 1, none, none⟩

/-- Constructor `DateRange::new_with_prior_next`. -/
def DateRange.newWithPriorNext (s e : Date) (k : NavKind) : DateRange :=
  ⟨s, e, toRd e - toRd s + 1, some k, none⟩

/-- Constructor `DateRange::new_with_prior_next_start_day`. -/
def DateRange.newWithPriorNextStartDay (s e : Date) (k : NavKind) (sd : Option Int) :
    DateRange :=
  ⟨s, e, toRd e - toRd s + 1, some k, sd⟩

/-- Private helper `DateRange::create_new_date_range`: new bounds,
recomputed length, same strategy pair and anchor day. -/
def DateRange.createNew (r : DateRange) (s e : Date) : DateRange :=
  ⟨s, e, toRd e - toRd s + 1, r.nav, r.start_day⟩

/-- Membership test `DateRange::contains_date` (inclusive bounds). -/
def DateRange.contains_date (r : DateRange) (d : Date) : Prop :=
  Date.le r.start_date d ∧ Date.le d r.end_date

instance (r : DateRange) (d : Date) : Decidable (r.contains_date d) := by
  unfold DateRange.contains_date; infer_instance

/-! ### The seven family generators -/

/-- Helper of `AnnualDateRange`: the range end for a given start. A Feb 29
start is special-cased to Feb 28 of the following year; otherwise the end
is `add_years(start, 1) - 1 day`. -/
def end_for_start (d : Date) : Date :=
  if d.month = 2 ∧ d.day = 29 then ⟨d.year + 1, 2, 28⟩
  else Date.pred (add_years d 1)

/-- `AnnualDateRange::prior`. -/
def annualPrior (r : DateRange) : DateRange :=
  let s := subtract_years r.start_date 1
  DateRange.newWithPriorNext s (end_for_start s) .annual

/-- `AnnualDateRange::next`. -/
def annualNext (r : DateRange) : DateRange :=
  let s := add_years r.start_date 1
  DateRange.newWithPriorNext s (end_for_start s) .annual

/-- `AnnualDateRange::with_start_date`. -/
def annualWithStartDate (d : Date) : DateRange :=
  DateRange.newWithPriorNext d (end_for_start d) .annual

/-- `AnnualDateRange::with_end_date`. -/
def annualWithEndDate (e : Date) : DateRange :=
  DateRange.newWithPriorNext (Date.succ (subtract_years e 1)) e .annual

/-- `SemiAnnualDateRange::prior`: both bounds back six clamped months. -/
def semiAnnualPrior (r : DateRange) : DateRange :=
  DateRange.newWithPriorNext (subtract_months r.start_date 6)
    (subtract_months r.end_date 6) .semiAnnual

/-- `SemiAnnualDateRange::next`: both bounds forward six clamped months. -/
def semiAnnualNext (r : DateRange) : DateRange :=
  DateRange.newWithPriorNext (add_months r.start_date 6)
    (add_months r.end_date 6) .semiAnnual

/-- `SemiAnnualDateRange::with_start_date`. -/
def semiAnnualWithStartDate (d : Date) : DateRange :=
  DateRange.newWithPriorNext d (Date.pred (add_months d 6)) .semiAnnual

/-- `SemiAnnualDateRange::with_end_date`. -/
def semiAnnualWithEndDate (e : Date) : DateRange :=
  DateRange.newWithPriorNext (Date.succ (subtract_months e 6)) e .semiAnnual

/-- `QuarterlyDateRange::prior`. -/
def quarterlyPrior (r : DateRange) : DateRange :=
  DateRange.newWithPriorNext (subtract_months r.start_date 3)
    (last_day_of_month (subtract_months (first_day_of_month r.end_date) 3)) .quarterly

/-- `QuarterlyDateRange::next`. -/
def quarterlyNext (r : DateRange) : DateRange :=
  DateRange.newWithPriorNext (add_months r.start_date 3)
    (last_day_of_month (add_months (first_day_of_month r.end_date) 3)) .quarterly

/-- `QuarterlyDateRange::with_start_date`. -/
def quarterlyWithStartDate (d : Date) : DateRange :=
  DateRange.newWithPriorNext (first_day_of_month d)
    (last_day_of_month (add_months (first_day_of_month d) 2)) .quarterly

/-- `MonthlyDateRange::prior`. The Rust code calls
`date_range.start_day().unwrap()`; monthly ranges always carry
`Some(start_day)`, and the model reads the anchor with `getD 0` (an absent
anchor would panic in Rust and is never exercised by the theorems). -/
def monthlyPrior (r : DateRange) : DateRange :=
  if r.start_day.getD 0 = 1 then
    let new_end := Date.pred r.start_date
    let new_start : Date := ⟨new_end.year, new_end.month, 1⟩
    DateRange.newWithPriorNextStartDay new_start new_end .monthly r.start_day
  else
    DateRange.newWithPriorNextStartDay (subtract_months r.start_date 1)
      (Date.pred r.start_date) .monthly r.start_day

/-- `MonthlyDateRange::next`. -/
def monthlyNext (r : DateRange) : DateRange :=
  if r.start_day.getD 0 = 1 then
    let new_start := Date.succ r.end_date
    DateRange.newWithPriorNextStartDay new_start (last_day_of_month new_start)
      .monthly r.start_day
  else
    DateRange.newWithPriorNextStartDay (Date.succ r.end_date)
      (add_months r.end_date 1) .monthly r.start_day

/-- Free function `calculate_start_date_from_end_date` of
`monthly_date_range.rs`. For `start_day != 1` the Rust uses chrono
`checked_sub_months(Months::new(1))`, whose day-clamping semantics is that
of `subtract_months`. -/
def monthlyCalculateStartDate (end_date : Date) (start_day : Int) : Date :=
  if start_day = 1 then ⟨end_date.year, end_date.month, 1⟩
  else subtract_months (Date.succ end_date) 1

/-- `MonthlyDateRange::with_end_date_and_start_day`. -/
def monthlyWithEndDateAndStartDay (e : Date) (start_day : Int) : DateRange :=
  DateRange.newWithPriorNextStartDay (monthlyCalculateStartDate e start_day) e
    .monthly (some start_day)

/-- `SemiMonthlyDateRange::prior`. -/
def semiMonthlyPrior (r : DateRange) : DateRange :=
  let e := Date.pred r.start_date
  let s : Date :=
    if r.start_date.day = 1 then ⟨e.year, e.month, 16⟩ else ⟨e.year, e.month, 1⟩
  DateRange.newWithPriorNext s e .semiMonthly

/-- `SemiMonthlyDateRange::next`. -/
def semiMonthlyNext (r : DateRange) : DateRange :=
  let s : Date :=
    if r.end_date.day = 15 then ⟨r.end_date.year, r.end_date.month, 16⟩
    else
      let next_month := r.end_date.month % 12 + 1
      let y := if next_month = 1 then r.end_date.year + 1 else r.end_date.year
      ⟨y, next_month, 1⟩
  let e := if s.day = 1 then (⟨s.year, s.month, 15⟩ : Date) else last_day_of_month s
  DateRange.newWithPriorNext s e .semiMonthly

/-- Option-valued model of chrono `NaiveDate::from_ymd_opt`. -/
def fromYmd (y m d : Int) : Option Date :=
  if (Date.mk y m d).Valid then some ⟨y, m, d⟩ else none

/-- Free function `calculate_start_date_from_end_date` of
`semi_monthly_date_range.rs`, kept Option-valued so that the `unwrap`
calls on `from_ymd_opt` are visible: `none` models a panic. -/
def semiMonthlyCalculateStartDate (e : Date) : Option Date :=
  if e.day = 15 then fromYmd e.year e.month 1 else fromYmd e.year e.month 16

/-- `SemiMonthlyDateRange::with_end_date`, Option-valued: `none` models
the panic of an `unwrap` inside `calculate_start_date_from_end_date`. -/
def semiMonthlyWithEndDate (e : Date) : Option DateRange :=
  (semiMonthlyCalculateStartDate e).map fun s =>
    DateRange.newWithPriorNext s e .semiMonthly

/-- `WeeklyDateRange::with_start_date`: plain range, default navigation. -/
def weeklyWithStartDate (d : Date) : DateRange :=
  DateRange.new d (addDaysI d 6)

/-- `BiWeeklyDateRange::with_start_date`. -/
def biWeeklyWithStartDate (d : Date) : DateRange :=
  DateRange.new d (addDaysI d 13)

/-! ### Navigation dispatch and derived operations -/

/-- `DateRange::prior`: the stored strategy if present, else shift both
bounds back by `len` days. -/
def DateRange.prior (r : DateRange) : DateRange :=
  match r.nav with
  | none => r.createNew (addDaysI r.start_date (-r.len)) (addDaysI r.end_date (-r.len))
  | some .annual => annualPrior r
  | some .semiAnnual => semiAnnualPrior r
  | some .quarterly => quarterlyPrior r
  | some .monthly => monthlyPrior r
  | some .semiMonthly => semiMonthlyPrior r

/-- `DateRange::next`: the stored strategy if present, else shift both
bounds forward by `len` days. -/
def DateRange.next (r : DateRange) : DateRange :=
  match r.nav with
  | none => r.createNew (addDaysI r.start_date r.len) (addDaysI r.end_date r.len)
  | some .annual => annualNext r
  | some .semiAnnual => semiAnnualNext r
  | some .quarterly => quarterlyNext r
  | some .monthly => monthlyNext r
  | some .semiMonthly => semiMonthlyNext r

/-- `DateRange::prior_n`: `let mut range = self.prior()` followed by the
loop `for _ in 1..number { range = range.prior() }`, which runs
`number - 1` times (truncated at zero). -/
def DateRange.prior_n (r : DateRange) (number : Nat) : DateRange :=
  DateRange.prior^[number - 1] r.prior

/-- `DateRange::next_n`, mirroring `prior_n`. -/
def DateRange.next_n (r : DateRange) (number : Nat) : DateRange :=
  DateRange.next^[number - 1] r.next

/-- Body of the `while current <= end` loop of `DateRange::dates`, with
the iteration count made explicit: the loop advances `current` one day per
iteration, so it runs once per day of `[start, end]`. -/
def datesLoop : Nat → Date → Date → List Date
  | 0, _, _ => []
  | fuel + 1, current, last =>
    if Date.le current last then current :: datesLoop fuel (Date.succ current) last
    else []

/-- `DateRange::dates`: every date from `start_date` to `end_date`. -/
def DateRange.dates (r : DateRange) : List Date :=
  datesLoop (toRd r.end_date + 1 - toRd r.start_date).toNat r.start_date r.end_date

/-- `DateRange::date_at`: `self.dates().get(index).copied()`. -/
def DateRange.date_at (r : DateRange) (index : Nat) : Option Date :=
  r.dates[index]?

/-- Body of the search loop of `DateRange::range_containing_date`, with an
explicit fuel bound: `none` means the fuel ran out before the loop found a
containing range. Termination for monotonic gap-free strategies is the
content of claim C1. -/
def rcdLoop : Nat → DateRange → Date → Option DateRange
  | 0, _, _ => none
  | fuel + 1, range, date =>
    if range.contains_date date then some range
    else if Date.lt range.end_date date then rcdLoop fuel range.next date
    else rcdLoop fuel range.prior date

/-- `DateRange::range_containing_date`: re-create the range (the
`create_new_date_range` call at the top of the method), then scan with
`next`/`prior` until the date is contained. -/
def rangeContainingDate (fuel : Nat) (r : DateRange) (date : Date) : Option DateRange :=
  rcdLoop fuel (r.createNew r.start_date r.end_date) date

/-- Equality of ranges (`impl PartialEq for DateRange`): start and end
dates only. -/
def DateRange.req (a b : DateRange) : Prop :=
  a.start_date = b.start_date ∧ a.end_date = b.end_date

instance (a b : DateRange) : Decidable (a.req b) := by
  unfold DateRange.req; infer_instance

/-- Comparison of ranges (`impl Ord for DateRange`):
`self.start_date.cmp(&other.start_date)`. -/
def DateRange.rcmp (a b : DateRange) : Ordering :=
  compare (toRd a.start_date) (toRd b.start_date)

/-- Apply a reachability word to a range: `true` steps `next`, `false`
steps `prior`. -/
def applySteps : List Bool → DateRange → DateRange
  | [], r => r
  | b :: rest, r => applySteps rest (if b then r.next else r.prior)

/-! ### Spec-side shape vocabulary for the claims -/

/-- Year/month pair of the month following (y, m). -/
def nextYM (y m : Int) : Int × Int :=
  if m = 12 then (y + 1, 1) else (y, m + 1)

/-- Year/month pair of the month preceding (y, m). -/
def prevYM (y m : Int) : Int × Int :=
  if m = 1 then (y - 1, 12) else (y, m - 1)

/-- Shape of a well-formed custom-anchor monthly range (claim C5): the
monthly strategy with anchor day `k`, a valid start on the `k`-th of some
month and a valid end on the `(k-1)`-th of the following month. -/
def monthlyShape (k : Int) (r : DateRange) : Prop :=
  r.nav = some NavKind.monthly ∧ r.start_day = some k
  ∧ r.start_date.Valid ∧ r.end_date.Valid
  ∧ r.start_date.day = k ∧ r.end_date.day = k - 1
  ∧ (r.end_date.year, r.end_date.month) = nextYM r.start_date.year r.start_date.month

instance (k : Int) (r : DateRange) : Decidable (monthlyShape k r) := by
  unfold monthlyShape; infer_instance

/-- Well-formed ranges of the uniform-step families (claim C3): plain
length-shift ranges (weekly, bi-weekly and any `DateRange::new` range)
with a consistent cached length; semi-annual ranges whose bounds both
carry a day-of-month of at most 28 (so six-month shifts never clamp);
quarterly ranges spanning whole months (start on a 1st, end on a month
end); monthly ranges with anchor 1 spanning exactly one calendar month;
monthly ranges with anchor 2..28 in the anchor shape; and annual ranges
with a non-Feb-29 start and the family's own end rule. -/
def UniformRange (r : DateRange) : Prop :=
  (r.nav = none ∧ r.start_date.Valid ∧ r.end_date.Valid
    ∧ toRd r.start_date ≤ toRd r.end_date
    ∧ r.len = toRd r.end_date - toRd r.start_date + 1)
  ∨ (r.nav = some NavKind.semiAnnual ∧ r.start_date.Valid ∧ r.end_date.Valid
    ∧ r.start_date.day ≤ 28 ∧ r.end_date.day ≤ 28)
  ∨ (r.nav = some NavKind.quarterly ∧ r.start_date.Valid ∧ r.end_date.Valid
    ∧ r.start_date.day = 1
    ∧ r.end_date.day = daysInMonth r.end_date.year r.end_date.month)
  ∨ (r.nav = some NavKind.monthly ∧ r.start_day = some 1 ∧ r.start_date.Valid
    ∧ r.start_date.day = 1
    ∧ r.end_date = ⟨r.start_date.year, r.start_date.month,
        daysInMonth r.start_date.year r.start_date.month⟩)
  ∨ (2 ≤ r.start_date.day ∧ r.start_date.day ≤ 28 ∧ monthlyShape r.start_date.day r)
  ∨ (r.nav = some NavKind.annual ∧ r.start_date.Valid
    ∧ ¬(r.start_date.month = 2 ∧ r.start_date.day = 29)
    ∧ r.end_date = end_for_start r.start_date)

instance (r : DateRange) : Decidable (UniformRange r) := by
  unfold UniformRange; infer_instance

/-! ### Basic calendar lemmas -/

theorem valid_mk (y m dd : Int) :
    (Date.mk y m dd).Valid ↔ 1 ≤ m ∧ m ≤ 12 ∧ 1 ≤ dd ∧ dd ≤ daysInMonth y m :=
  Iff.rfl

theorem toRd_mk (y m dd : Int) :
    toRd ⟨y, m, dd⟩ = daysBeforeYear y + daysBeforeMonth y m + dd := rfl

theorem daysInMonth_ge (y m : Int) (h1 : 1 ≤ m) (h2 : m ≤ 12) :
    28 ≤ daysInMonth y m := by
  interval_cases m <;> simp [daysInMonth] <;> cases isLeapYear y <;> simp

theorem daysInMonth_ne_two (y y' m : Int) (h1 : 1 ≤ m) (h2 : m ≤ 12) (h : m ≠ 2) :
    daysInMonth y m = daysInMonth y' m := by
  interval_cases m <;> simp [daysInMonth] at h ⊢

theorem daysBeforeMonth_succ (y m : Int) (h1 : 1 ≤ m) (h2 : m ≤ 11) :
    daysBeforeMonth y (m + 1) = daysBeforeMonth y m + daysInMonth y m := by
  interval_cases m <;> cases hl : isLeapYear y <;>
    norm_num [daysBeforeMonth, daysInMonth, leapDay, hl]

theorem daysBeforeYear_succ (y : Int) :
    daysBeforeYear (y + 1) =
      daysBeforeYear y + 334 + leapDay y + 31 := by
  have hl : isLeapYear y = true ↔ (y % 4 = 0 ∧ ¬y % 100 = 0) ∨ y % 400 = 0 := by
    simp [isLeapYear]
  by_cases h4 : y % 4 = 0 <;> by_cases h100 : y % 100 = 0 <;>
    by_cases h400 : y % 400 = 0 <;>
    (try (exfalso; omega)) <;>
    (first
      | (have hly : isLeapYear y = true := by rw [hl]; tauto
         simp only [daysBeforeYear, leapDay, hly, if_true]; push_cast; omega)
      | (have hly : isLeapYear y = false := by
           rw [Bool.eq_false_iff, Ne, hl]; tauto
         simp only [daysBeforeYear, leapDay, hly, if_false]; push_cast; omega))

theorem toRd_succ (d : Date) (h : d.Valid) : toRd d.succ = toRd d + 1 := by
  obtain ⟨hm1, hm2, hd1, hd2⟩ := h
  unfold Date.succ
  split_ifs with h1 h2
  · simp only [toRd_mk, toRd]; omega
  · have hday : d.day = daysInMonth d.year d.month := by omega
    have hstep := daysBeforeMonth_succ d.year d.month hm1 (by omega)
    simp only [toRd_mk, toRd]; omega
  · have hm : d.month = 12 := by omega
    have h31 : daysInMonth d.year 12 = 31 := rfl
    have hd12 : daysBeforeMonth d.year 12 = 334 + leapDay d.year := rfl
    have hd1' : daysBeforeMonth (d.year + 1) 1 = 0 := rfl
    have hstep := daysBeforeYear_succ d.year
    simp only [toRd_mk, toRd, hm] at *
    omega

theorem valid_succ (d : Date) (h : d.Valid) : d.succ.Valid := by
  obtain ⟨hm1, hm2, hd1, hd2⟩ := h
  unfold Date.succ
  split_ifs with h1 h2
  · exact (valid_mk _ _ _).mpr ⟨hm1, hm2, by omega, by omega⟩
  · have h28 := daysInMonth_ge d.year (d.month + 1) (by omega) (by omega)
    exact (valid_mk _ _ _).mpr ⟨by omega, by omega, by omega, by omega⟩
  · have h31 : daysInMonth (d.year + 1) 1 = 31 := rfl
    exact (valid_mk _ _ _).mpr ⟨by omega, by omega, by omega, by omega⟩

theorem valid_pred (d : Date) (h : d.Valid) : d.pred.Valid := by
  obtain ⟨hm1, hm2, hd1, hd2⟩ := h
  unfold Date.pred
  split_ifs with h1 h2
  · exact (valid_mk _ _ _).mpr ⟨hm1, hm2, by omega, by omega⟩
  · have h28 := daysInMonth_ge d.year (d.month - 1) (by omega) (by omega)
    exact (valid_mk _ _ _).mpr ⟨by omega, by omega, by omega, by omega⟩
  · have h31 : daysInMonth (d.year - 1) 12 = 31 := rfl
    exact (valid_mk _ _ _).mpr ⟨by omega, by omega, by omega, by omega⟩

theorem pred_succ (d : Date) (h : d.Valid) : d.succ.pred = d := by
  obtain ⟨y, m, dd⟩ := d
  rw [valid_mk] at h
  obtain ⟨hm1, hm2, hd1, hd2⟩ := h
  have h28 := daysInMonth_ge y m hm1 hm2
  unfold Date.succ
  dsimp only
  split_ifs with h1 h2
  · unfold Date.pred
    dsimp only
    rw [if_pos (by omega)]
    simp only [Date.mk.injEq, true_and, and_true]
    omega
  · unfold Date.pred
    dsimp only
    rw [if_neg (by omega), if_pos (by omega)]
    simp only [Date.mk.injEq, true_and, and_true]
    have he : m + 1 - 1 = m := by omega
    rw [he]
    omega
  · have hm : m = 12 := by omega
    subst hm
    have h31 : daysInMonth y 12 = 31 := rfl
    unfold Date.pred
    dsimp only
    rw [if_neg (by omega), if_neg (by omega)]
    simp only [Date.mk.injEq, true_and, and_true]
    omega

theorem succ_pred (d : Date) (h : d.Valid) : d.pred.succ = d := by
  obtain ⟨y, m, dd⟩ := d
  rw [valid_mk] at h
  obtain ⟨hm1, hm2, hd1, hd2⟩ := h
  unfold Date.pred
  dsimp only
  split_ifs with h1 h2
  · unfold Date.succ
    dsimp only
    rw [if_pos (by omega)]
    simp only [Date.mk.injEq, true_and, and_true]
    omega
  · unfold Date.succ
    dsimp only
    rw [if_neg (by omega), if_pos (by omega)]
    simp only [Date.mk.injEq, true_and, and_true]
    omega
  · have hm : m = 1 := by omega
    subst hm
    have h31 : daysInMonth (y - 1) 12 = 31 := rfl
    unfold Date.succ
    dsimp only
    rw [if_neg (by omega), if_neg (by omega)]
    simp only [Date.mk.injEq, true_and, and_true]
    omega

theorem toRd_pred (d : Date) (h : d.Valid) : toRd d.pred = toRd d - 1 := by
  have hv := valid_pred d h
  have hstep := toRd_succ d.pred hv
  rw [succ_pred d h] at hstep
  omega

/-! ### Iterated day steps -/

theorem valid_succ_iter (k : Nat) (d : Date) (h : d.Valid) :
    (Date.succ^[k] d).Valid := by
  induction k generalizing d with
  | zero => simpa using h
  | succ k ih =>
    rw [Function.iterate_succ_apply]
    exact ih _ (valid_succ d h)

theorem valid_pred_iter (k : Nat) (d : Date) (h : d.Valid) :
    (Date.pred^[k] d).Valid := by
  induction k generalizing d with
  | zero => simpa using h
  | succ k ih =>
    rw [Function.iterate_succ_apply]
    exact ih _ (valid_pred d h)

theorem toRd_succ_iter (k : Nat) (d : Date) (h : d.Valid) :
    toRd (Date.succ^[k] d) = toRd d + k := by
  induction k generalizing d with
  | zero => simp
  | succ k ih =>
    rw [Function.iterate_succ_apply]
    rw [ih _ (valid_succ d h), toRd_succ d h]
    push_cast
    omega

theorem toRd_pred_iter (k : Nat) (d : Date) (h : d.Valid) :
    toRd (Date.pred^[k] d) = toRd d - k := by
  induction k generalizing d with
  | zero => simp
  | succ k ih =>
    rw [Function.iterate_succ_apply]
    rw [ih _ (valid_pred d h), toRd_pred d h]
    push_cast
    omega

theorem succ_iter_pred_iter (k : Nat) (d : Date) (h : d.Valid) :
    Date.succ^[k] (Date.pred^[k] d) = d := by
  induction k generalizing d with
  | zero => simp
  | succ k ih =>
    rw [Function.iterate_succ_apply, Function.iterate_succ_apply']
    rw [succ_pred _ (valid_pred_iter k d h)]
    exact ih d h

theorem pred_iter_succ_iter (k : Nat) (d : Date) (h : d.Valid) :
    Date.pred^[k] (Date.succ^[k] d) = d := by
  induction k generalizing d with
  | zero => simp
  | succ k ih =>
    rw [Function.iterate_succ_apply, Function.iterate_succ_apply']
    rw [pred_succ _ (valid_succ_iter k d h)]
    exact ih d h

theorem toRd_addDaysI (d : Date) (n : Int) (h : d.Valid) :
    toRd (addDaysI d n) = toRd d + n := by
  unfold addDaysI
  split_ifs with h0
  · rw [toRd_succ_iter _ _ h]; omega
  · rw [toRd_pred_iter _ _ h]; omega

theorem valid_addDaysI (d : Date) (n : Int) (h : d.Valid) :
    (addDaysI d n).Valid := by
  unfold addDaysI
  split_ifs with h0
  · exact valid_succ_iter _ _ h
  · exact valid_pred_iter _ _ h

theorem addDaysI_neg_cancel (d : Date) (n : Int) (hn : 0 ≤ n) (h : d.Valid) :
    addDaysI (addDaysI d (-n)) n = d := by
  rcases eq_or_lt_of_le hn with heq | hlt
  · subst heq; simp [addDaysI]
  · unfold addDaysI
    rw [if_pos hn, if_neg (by omega)]
    simp only [neg_neg]
    exact succ_iter_pred_iter n.toNat d h

theorem addDaysI_pos_cancel (d : Date) (n : Int) (hn : 0 ≤ n) (h : d.Valid) :
    addDaysI (addDaysI d n) (-n) = d := by
  rcases eq_or_lt_of_le hn with heq | hlt
  · subst heq; simp [addDaysI]
  · unfold addDaysI
    rw [if_pos hn, if_neg (by omega)]
    simp only [neg_neg]
    exact pred_iter_succ_iter n.toNat d h

/-! ### Characterisation of the month-normalisation loops -/

theorem normUpN_sum (k : Nat) (y m : Int) :
    12 * (normUpN k y m).1 + (normUpN k y m).2 = 12 * y + m := by
  induction k generalizing y m with
  | zero => simp [normUpN]
  | succ k ih =>
    unfold normUpN
    split_ifs with h
    · rw [ih]; ring
    · simp

theorem normUpN_le (k : Nat) (y m : Int) (h : m - 12 ≤ k) :
    (normUpN k y m).2 ≤ 12 := by
  induction k generalizing y m with
  | zero => simp [normUpN]; omega
  | succ k ih =>
    unfold normUpN
    split_ifs with hgt
    · exact ih _ _ (by push_cast at h ⊢; omega)
    · simpa using by omega

theorem normUpN_ge (k : Nat) (y m : Int) (h : 1 ≤ m) :
    1 ≤ (normUpN k y m).2 := by
  induction k generalizing y m with
  | zero => simpa [normUpN] using h
  | succ k ih =>
    unfold normUpN
    split_ifs with hgt
    · exact ih _ _ (by omega)
    · simpa using h

theorem normDownN_sum (k : Nat) (y m : Int) :
    12 * (normDownN k y m).1 + (normDownN k y m).2 = 12 * y + m := by
  induction k generalizing y m with
  | zero => simp [normDownN]
  | succ k ih =>
    unfold normDownN
    split_ifs with h
    · rw [ih]; ring
    · simp

theorem normDownN_ge (k : Nat) (y m : Int) (h : 1 - m ≤ k) :
    1 ≤ (normDownN k y m).2 := by
  induction k generalizing y m with
  | zero => simp [normDownN]; omega
  | succ k ih =>
    unfold normDownN
    split_ifs with hlt
    · exact ih _ _ (by push_cast at h ⊢; omega)
    · simpa using by omega

theorem normDownN_le (k : Nat) (y m : Int) (h : m ≤ 12) :
    (normDownN k y m).2 ≤ 12 := by
  induction k generalizing y m with
  | zero => simpa [normDownN] using h
  | succ k ih =>
    unfold normDownN
    split_ifs with hlt
    · exact ih _ _ (by omega)
    · simpa using h

/-! ### Characterisation of `add_months` -/

theorem last_day_of_month_eq (y m : Int) (h1 : 1 ≤ m) (h2 : m ≤ 12) (dd : Int) :
    last_day_of_month ⟨y, m, dd⟩ = ⟨y, m, daysInMonth y m⟩ := by
  unfold last_day_of_month
  dsimp only
  split_ifs with h12
  · subst h12
    have h31 : daysInMonth y 12 = 31 := rfl
    unfold Date.pred
    dsimp only
    rw [if_neg (by omega), if_neg (by omega)]
    simp only [Date.mk.injEq, true_and, and_true]
    omega
  · unfold Date.pred
    dsimp only
    rw [if_neg (by omega), if_pos (by omega), (by omega : m + 1 - 1 = m)]

theorem add_months_char (d : Date) (n : Int) :
    1 ≤ (add_months d n).month ∧ (add_months d n).month ≤ 12
    ∧ 12 * (add_months d n).year + (add_months d n).month = 12 * d.year + d.month + n
    ∧ (add_months d n).day
        = min d.day (daysInMonth (add_months d n).year (add_months d n).month) := by
  have hup2 : (normUpN (d.month + n - 12).toNat d.year (d.month + n)).2 ≤ 12 :=
    normUpN_le _ _ _ (Int.self_le_toNat _)
  have hge := normDownN_ge
    (1 - (normUpN (d.month + n - 12).toNat d.year (d.month + n)).2).toNat
    (normUpN (d.month + n - 12).toNat d.year (d.month + n)).1
    (normUpN (d.month + n - 12).toNat d.year (d.month + n)).2
    (Int.self_le_toNat _)
  have hle := normDownN_le
    (1 - (normUpN (d.month + n - 12).toNat d.year (d.month + n)).2).toNat
    (normUpN (d.month + n - 12).toNat d.year (d.month + n)).1
    (normUpN (d.month + n - 12).toNat d.year (d.month + n)).2
    hup2
  have hsum := normDownN_sum
    (1 - (normUpN (d.month + n - 12).toNat d.year (d.month + n)).2).toNat
    (normUpN (d.month + n - 12).toNat d.year (d.month + n)).1
    (normUpN (d.month + n - 12).toNat d.year (d.month + n)).2
  have hsum2 := normUpN_sum (d.month + n - 12).toNat d.year (d.month + n)
  rcases hq : normDownN
      (1 - (normUpN (d.month + n - 12).toNat d.year (d.month + n)).2).toNat
      (normUpN (d.month + n - 12).toNat d.year (d.month + n)).1
      (normUpN (d.month + n - 12).toNat d.year (d.month + n)).2 with ⟨y2, m2⟩
  rw [hq] at hge hle hsum
  dsimp only at hge hle hsum
  have hrepr : add_months d n
      = ⟨y2, m2, min d.day (last_day_of_month ⟨y2, m2, 1⟩).day⟩ := by
    simp only [add_months, hq]
  rw [hrepr]
  dsimp only
  refine ⟨hge, hle, by omega, ?_⟩
  rw [last_day_of_month_eq y2 m2 hge hle]

theorem add_months_valid (d : Date) (n : Int) (h : d.Valid) :
    (add_months d n).Valid := by
  obtain ⟨h1, h2, h3, h4⟩ := add_months_char d n
  obtain ⟨hm1, hm2, hd1, hd2⟩ := h
  have h28 := daysInMonth_ge (add_months d n).year (add_months d n).month h1 h2
  exact ⟨h1, h2, by omega, by omega⟩

/-- Uniqueness of the (year, month) pair with month in 1..12 realising a
given total month count. -/
theorem ym_unique (y m y' m' : Int) (h1 : 1 ≤ m) (h2 : m ≤ 12)
    (h1' : 1 ≤ m') (h2' : m' ≤ 12) (hsum : 12 * y + m = 12 * y' + m') :
    y = y' ∧ m = m' := by omega

/-- The result of `add_months` is determined by any (year, month) pair
with month in 1..12 and the right total month count. -/
theorem add_months_eq (d : Date) (n y2 m2 : Int) (h1 : 1 ≤ m2) (h2 : m2 ≤ 12)
    (hsum : 12 * y2 + m2 = 12 * d.year + d.month + n) :
    add_months d n = ⟨y2, m2, min d.day (daysInMonth y2 m2)⟩ := by
  obtain ⟨c1, c2, c3, c4⟩ := add_months_char d n
  have hy1 : (add_months d n).year = y2 := by omega
  have hy2 : (add_months d n).month = m2 := by omega
  rcases ha : add_months d n with ⟨ya, ma, da⟩
  rw [ha] at c4 hy1 hy2
  dsimp only at c4 hy1 hy2
  subst hy1
  subst hy2
  rw [c4]

/-- When the source day also exists in the target month, `add_months`
keeps it. -/
theorem add_months_small_day (d : Date) (n y2 m2 : Int) (h1 : 1 ≤ m2) (h2 : m2 ≤ 12)
    (hsum : 12 * y2 + m2 = 12 * d.year + d.month + n)
    (hdle : d.day ≤ daysInMonth y2 m2) :
    add_months d n = ⟨y2, m2, d.day⟩ := by
  rw [add_months_eq d n y2 m2 h1 h2 hsum, min_eq_left hdle]

/-- Round trip of month shifts on days that are never clamped. -/
theorem add_months_cancel (d : Date) (n : Int) (h : d.Valid) (hday : d.day ≤ 28) :
    add_months (add_months d n) (-n) = d := by
  obtain ⟨hm1, hm2, hd1, hd2⟩ := h
  obtain ⟨c1, c2, c3, c4⟩ := add_months_char d n
  have h28 := daysInMonth_ge (add_months d n).year (add_months d n).month c1 c2
  have hA : (add_months d n).day = d.day := by
    rw [c4]
    exact min_eq_left (by omega)
  have hback := add_months_eq (add_months d n) (-n) d.year d.month hm1 hm2 (by omega)
  rw [hback, hA, min_eq_left (by omega)]

/-! ### Claim C7: equality and ordering use only the bounds -/

/-- C7: for all DateRanges `a` and `b`, equality considers only the pair
(start, end): `a == b` iff `a` and `b` have the same start and end dates;
and both equality and the `Ord` comparison are unchanged when the
navigation strategy, anchor day or cached length of either side changes,
as long as the bounds are kept. -/
theorem eq_ord_depends_only_on_bounds (a b a2 b2 : DateRange)
    (hsa : a2.start_date = a.start_date) (hea : a2.end_date = a.end_date)
    (hsb : b2.start_date = b.start_date) (heb : b2.end_date = b.end_date) :
    (a.req b ↔ a.start_date = b.start_date ∧ a.end_date = b.end_date)
    ∧ (a2.req b2 ↔ a.req b)
    ∧ a2.rcmp b2 = a.rcmp b := by
  refine ⟨Iff.rfl, ?_, ?_⟩
  · unfold DateRange.req
    rw [hsa, hea, hsb, heb]
  · unfold DateRange.rcmp
    rw [hsa, hsb]

/-- Witness for C7 at concrete ranges: `a2`,`b2` carry a monthly strategy
with anchor day 16 and a semi-annual strategy, yet equality and ordering
agree with the plain ranges of the same bounds. -/
theorem eq_ord_depends_only_on_bounds_witness :
    ((DateRange.new ⟨2023, 1, 1⟩ ⟨2023, 1, 7⟩).req (DateRange.new ⟨2023, 1, 8⟩ ⟨2023, 1, 14⟩)
      ↔ (DateRange.new ⟨2023, 1, 1⟩ ⟨2023, 1, 7⟩).start_date
          = (DateRange.new ⟨2023, 1, 8⟩ ⟨2023, 1, 14⟩).start_date
        ∧ (DateRange.new ⟨2023, 1, 1⟩ ⟨2023, 1, 7⟩).end_date
          = (DateRange.new ⟨2023, 1, 8⟩ ⟨2023, 1, 14⟩).end_date)
    ∧ ((DateRange.mk ⟨2023, 1, 1⟩ ⟨2023, 1, 7⟩ 7 (some .monthly) (some 16)).req
        (DateRange.mk ⟨2023, 1, 8⟩ ⟨2023, 1, 14⟩ 99 (some .semiAnnual) none)
      ↔ (DateRange.new ⟨2023, 1, 1⟩ ⟨2023, 1, 7⟩).req (DateRange.new ⟨2023, 1, 8⟩ ⟨2023, 1, 14⟩))
    ∧ (DateRange.mk ⟨2023, 1, 1⟩ ⟨2023, 1, 7⟩ 7 (some .monthly) (some 16)).rcmp
        (DateRange.mk ⟨2023, 1, 8⟩ ⟨2023, 1, 14⟩ 99 (some .semiAnnual) none)
      = (DateRange.new ⟨2023, 1, 1⟩ ⟨2023, 1, 7⟩).rcmp (DateRange.new ⟨2023, 1, 8⟩ ⟨2023, 1, 14⟩) :=
  eq_ord_depends_only_on_bounds _ _ _ _ rfl rfl rfl rfl

/-! ### Claim C6: `prior_n`/`next_n` versus iterated `prior`/`next` -/

/-- C6 counterexample: the claim says `prior_n(0)` and `next_n(0)` return
a range with the caller's own bounds, but the Rust loop
`let mut range = self.prior(); for _ in 1..number` applies `prior` once
even for `number == 0`: for the week 2023-01-01..2023-01-07, `prior_n(0)`
starts on 2022-12-25, not 2023-01-01. -/
theorem prior_n_zero_cex :
    ((DateRange.new ⟨2023, 1, 1⟩ ⟨2023, 1, 7⟩).prior_n 0).start_date = ⟨2022, 12, 25⟩
    ∧ ((DateRange.new ⟨2023, 1, 1⟩ ⟨2023, 1, 7⟩).prior_n 0).start_date ≠ ⟨2023, 1, 1⟩
    ∧ ((DateRange.new ⟨2023, 1, 1⟩ ⟨2023, 1, 7⟩).next_n 0).start_date = ⟨2023, 1, 8⟩
    ∧ ((DateRange.new ⟨2023, 1, 1⟩ ⟨2023, 1, 7⟩).next_n 0).start_date ≠ ⟨2023, 1, 1⟩ := by
  decide

/-- C6 (amended): `prior_n(k)` applies `prior` exactly `max 1 k` times and
`next_n(k)` applies `next` exactly `max 1 k` times: exactly `k` times for
every `k ≥ 1`, but one time (not zero) for `k = 0`. -/
theorem prior_n_next_n_iterate (r : DateRange) (k : Nat) :
    r.prior_n k = DateRange.prior^[max 1 k] r
    ∧ r.next_n k = DateRange.next^[max 1 k] r := by
  constructor
  · unfold DateRange.prior_n
    have h : max 1 k = (k - 1) + 1 := by omega
    rw [h, Function.iterate_succ_apply]
  · unfold DateRange.next_n
    have h : max 1 k = (k - 1) + 1 := by omega
    rw [h, Function.iterate_succ_apply]

/-! ### Claim C2: the annual family's end-of-range rule -/

/-- C2: `AnnualDateRange::with_start_date(d)` starts at `d`; its end is
Feb 28 of the following year when `d` is a Feb 29, and
`add_years(d, 1) - 1 day` (clamped year addition, then one day back)
otherwise; the end is always a valid date, and the leap scenario
2020-02-29 -> 2021-02-28 holds concretely. -/
theorem annual_with_start_date_spec (d : Date) (h : d.Valid) :
    (annualWithStartDate d).start_date = d
    ∧ (d.month = 2 ∧ d.day = 29 →
        (annualWithStartDate d).end_date = ⟨d.year + 1, 2, 28⟩)
    ∧ (¬(d.month = 2 ∧ d.day = 29) →
        (annualWithStartDate d).end_date = Date.pred (add_years d 1))
    ∧ (annualWithStartDate d).end_date.Valid
    ∧ (annualWithStartDate ⟨2020, 2, 29⟩).end_date = ⟨2021, 2, 28⟩ := by
  obtain ⟨hm1, hm2, hd1, hd2⟩ := h
  refine ⟨rfl, ?_, ?_, ?_, by decide⟩
  · intro hfeb
    show end_for_start d = _
    unfold end_for_start
    rw [if_pos hfeb]
  · intro hfeb
    show end_for_start d = _
    unfold end_for_start
    rw [if_neg hfeb]
  · show (end_for_start d).Valid
    unfold end_for_start
    split_ifs with hfeb
    · have h28 := daysInMonth_ge (d.year + 1) 2 (by omega) (by omega)
      exact (valid_mk _ _ _).mpr ⟨by omega, by omega, by omega, by omega⟩
    · exact valid_pred _ (add_months_valid d 12 ⟨hm1, hm2, hd1, hd2⟩)

/-- Witness for C2 at the leap-day start 2020-02-29. -/
theorem annual_with_start_date_witness :
    (annualWithStartDate ⟨2020, 2, 29⟩).start_date = ⟨2020, 2, 29⟩
    ∧ ((2 : Int) = 2 ∧ (29 : Int) = 29 →
        (annualWithStartDate ⟨2020, 2, 29⟩).end_date = ⟨2020 + 1, 2, 28⟩)
    ∧ (annualWithStartDate ⟨2020, 2, 29⟩).end_date.Valid := by
  obtain ⟨c1, c2, _, c4, _⟩ := annual_with_start_date_spec ⟨2020, 2, 29⟩ (by decide)
  exact ⟨c1, c2, c4⟩

/-! ### Claim C4: `add_months` shifts months, carries years, clamps days -/

/-- C4: for every valid date and every integer month count, `add_months`
shifts the month by exactly `months` with the year carrying (the total
month count `12 * year + month` moves by `months` and the result month is
back in 1..12), keeps the source day when it exists in the target month,
clamps it to the target month's last day otherwise, never increases the
day, and always produces a valid date. -/
theorem add_months_spec (d : Date) (months : Int) (h : d.Valid) :
    1 ≤ (add_months d months).month ∧ (add_months d months).month ≤ 12
    ∧ 12 * (add_months d months).year + (add_months d months).month
        = 12 * d.year + d.month + months
    ∧ (d.day ≤ daysInMonth (add_months d months).year (add_months d months).month →
        (add_months d months).day = d.day)
    ∧ (daysInMonth (add_months d months).year (add_months d months).month < d.day →
        (add_months d months).day
          = daysInMonth (add_months d months).year (add_months d months).month)
    ∧ (add_months d months).day ≤ d.day
    ∧ (add_months d months).Valid := by
  obtain ⟨c1, c2, c3, c4⟩ := add_months_char d months
  refine ⟨c1, c2, c3, ?_, ?_, ?_, add_months_valid d months h⟩
  · intro hle
    rw [c4]
    exact min_eq_left hle
  · intro hlt
    rw [c4]
    exact min_eq_right (le_of_lt hlt)
  · rw [c4]
    exact min_le_left _ _

/-- Witness for C4 at Jan 31 2023 plus one month, the spec's own example:
the target month is February 2023 (28 days), so the day clamps to 28 and
the result is 2023-02-28, never March 3. -/
theorem add_months_spec_witness :
    (1 ≤ (add_months ⟨2023, 1, 31⟩ 1).month ∧ (add_months ⟨2023, 1, 31⟩ 1).month ≤ 12
    ∧ 12 * (add_months ⟨2023, 1, 31⟩ 1).year + (add_months ⟨2023, 1, 31⟩ 1).month
        = 12 * 2023 + 1 + 1
    ∧ ((31 : Int) ≤ daysInMonth (add_months ⟨2023, 1, 31⟩ 1).year
          (add_months ⟨2023, 1, 31⟩ 1).month →
        (add_months ⟨2023, 1, 31⟩ 1).day = 31)
    ∧ (daysInMonth (add_months ⟨2023, 1, 31⟩ 1).year (add_months ⟨2023, 1, 31⟩ 1).month
          < 31 →
        (add_months ⟨2023, 1, 31⟩ 1).day
          = daysInMonth (add_months ⟨2023, 1, 31⟩ 1).year (add_months ⟨2023, 1, 31⟩ 1).month)
    ∧ (add_months ⟨2023, 1, 31⟩ 1).day ≤ 31
    ∧ (add_months ⟨2023, 1, 31⟩ 1).Valid)
    ∧ add_months ⟨2023, 1, 31⟩ 1 = ⟨2023, 2, 28⟩ :=
  ⟨add_months_spec ⟨2023, 1, 31⟩ 1 (by decide), by decide⟩

/-! ### Claim C10: semi-monthly construction is total with fixed starts -/

/-- C10: for every valid end date `e` (not only the 15th or a month end),
`SemiMonthlyDateRange::with_end_date(e)` succeeds (none of its `unwrap`
calls panic), the end is exactly `e`, and the start is the 1st of `e`'s
month when `e.day == 15` and the 16th of `e`'s month for every other day
value. -/
theorem semi_monthly_with_end_date_total (e : Date) (h : e.Valid) :
    ∃ r, semiMonthlyWithEndDate e = some r
      ∧ r.end_date = e
      ∧ (e.day = 15 → r.start_date = ⟨e.year, e.month, 1⟩)
      ∧ (e.day ≠ 15 → r.start_date = ⟨e.year, e.month, 16⟩) := by
  obtain ⟨hm1, hm2, hd1, hd2⟩ := h
  have h28 := daysInMonth_ge e.year e.month hm1 hm2
  by_cases h15 : e.day = 15
  · have hv : (Date.mk e.year e.month 1).Valid :=
      (valid_mk _ _ _).mpr ⟨hm1, hm2, by omega, by omega⟩
    refine ⟨DateRange.newWithPriorNext ⟨e.year, e.month, 1⟩ e .semiMonthly, ?_, rfl,
      fun _ => rfl, fun hne => absurd h15 hne⟩
    unfold semiMonthlyWithEndDate semiMonthlyCalculateStartDate fromYmd
    rw [if_pos h15, if_pos hv]
    rfl
  · have hv : (Date.mk e.year e.month 16).Valid :=
      (valid_mk _ _ _).mpr ⟨hm1, hm2, by omega, by omega⟩
    refine ⟨DateRange.newWithPriorNext ⟨e.year, e.month, 16⟩ e .semiMonthly, ?_, rfl,
      fun h15' => absurd h15' h15, fun _ => rfl⟩
    unfold semiMonthlyWithEndDate semiMonthlyCalculateStartDate fromYmd
    rw [if_neg h15, if_pos hv]
    rfl

/-- Witness for C10 at `e` = 2023-01-05, a day that is neither the 15th
nor a month boundary: construction still succeeds, with start on the
16th. -/
theorem semi_monthly_with_end_date_witness :
    ∃ r, semiMonthlyWithEndDate ⟨2023, 1, 5⟩ = some r
      ∧ r.end_date = ⟨2023, 1, 5⟩
      ∧ ((5 : Int) = 15 → r.start_date = ⟨2023, 1, 1⟩)
      ∧ ((5 : Int) ≠ 15 → r.start_date = ⟨2023, 1, 16⟩) :=
  semi_monthly_with_end_date_total ⟨2023, 1, 5⟩ (by decide)

/-! ### Navigation dispatch lemmas -/

theorem contains_date_iff (r : DateRange) (x : Date) :
    r.contains_date x ↔ toRd r.start_date ≤ toRd x ∧ toRd x ≤ toRd r.end_date :=
  Iff.rfl

theorem next_default (r : DateRange) (h : r.nav = none) :
    r.next = r.createNew (addDaysI r.start_date r.len) (addDaysI r.end_date r.len) := by
  unfold DateRange.next
  rw [h]

theorem prior_default (r : DateRange) (h : r.nav = none) :
    r.prior = r.createNew (addDaysI r.start_date (-r.len)) (addDaysI r.end_date (-r.len)) := by
  unfold DateRange.prior
  rw [h]

theorem next_annual (r : DateRange) (h : r.nav = some NavKind.annual) :
    r.next = annualNext r := by
  unfold DateRange.next
  rw [h]

theorem prior_annual (r : DateRange) (h : r.nav = some NavKind.annual) :
    r.prior = annualPrior r := by
  unfold DateRange.prior
  rw [h]

theorem next_semiAnnual (r : DateRange) (h : r.nav = some NavKind.semiAnnual) :
    r.next = semiAnnualNext r := by
  unfold DateRange.next
  rw [h]

theorem prior_semiAnnual (r : DateRange) (h : r.nav = some NavKind.semiAnnual) :
    r.prior = semiAnnualPrior r := by
  unfold DateRange.prior
  rw [h]

theorem next_quarterly (r : DateRange) (h : r.nav = some NavKind.quarterly) :
    r.next = quarterlyNext r := by
  unfold DateRange.next
  rw [h]

theorem prior_quarterly (r : DateRange) (h : r.nav = some NavKind.quarterly) :
    r.prior = quarterlyPrior r := by
  unfold DateRange.prior
  rw [h]

theorem next_monthly (r : DateRange) (h : r.nav = some NavKind.monthly) :
    r.next = monthlyNext r := by
  unfold DateRange.next
  rw [h]

theorem prior_monthly (r : DateRange) (h : r.nav = some NavKind.monthly) :
    r.prior = monthlyPrior r := by
  unfold DateRange.prior
  rw [h]

/-! ### Claim C9: monthly ranges are always adjacent -/

/-- C9: for every range carrying the monthly strategy (anchor day 1 or
any other `k`), `next` starts exactly one day after the range's end and
`prior` ends exactly one day before the range's start, so consecutive
monthly ranges are adjacent: no calendar day lies strictly between a
range and its successor (or predecessor), and no day is contained in
both. -/
theorem monthly_adjacency (r : DateRange) (k : Int)
    (hnav : r.nav = some NavKind.monthly) (hsd : r.start_day = some k)
    (hs : r.start_date.Valid) (he : r.end_date.Valid) :
    (r.next).start_date = Date.succ r.end_date
    ∧ (r.prior).end_date = Date.pred r.start_date
    ∧ (∀ x : Date, ¬(toRd r.end_date < toRd x ∧ toRd x < toRd (r.next).start_date))
    ∧ (∀ x : Date, ¬(r.contains_date x ∧ (r.next).contains_date x))
    ∧ (∀ x : Date, ¬(toRd (r.prior).end_date < toRd x ∧ toRd x < toRd r.start_date))
    ∧ (∀ x : Date, ¬((r.prior).contains_date x ∧ r.contains_date x)) := by
  have hn : (r.next).start_date = Date.succ r.end_date := by
    rw [next_monthly r hnav]
    unfold monthlyNext
    split_ifs <;> rfl
  have hp : (r.prior).end_date = Date.pred r.start_date := by
    rw [prior_monthly r hnav]
    unfold monthlyPrior
    split_ifs <;> rfl
  have hrd1 : toRd (r.next).start_date = toRd r.end_date + 1 := by
    rw [hn, toRd_succ _ he]
  have hrd2 : toRd (r.prior).end_date = toRd r.start_date - 1 := by
    rw [hp, toRd_pred _ hs]
  refine ⟨hn, hp, ?_, ?_, ?_, ?_⟩
  · intro x hx
    omega
  · intro x hx
    obtain ⟨hx1, hx2⟩ := hx
    rw [contains_date_iff] at hx1 hx2
    omega
  · intro x hx
    omega
  · intro x hx
    obtain ⟨hx1, hx2⟩ := hx
    rw [contains_date_iff] at hx1 hx2
    omega

/-- Witness for C9 at the anchor-16 range 2023-02-16..2023-03-15. -/
theorem monthly_adjacency_witness :
    ((monthlyWithEndDateAndStartDay ⟨2023, 3, 15⟩ 16).next).start_date
      = Date.succ (monthlyWithEndDateAndStartDay ⟨2023, 3, 15⟩ 16).end_date
    ∧ ((monthlyWithEndDateAndStartDay ⟨2023, 3, 15⟩ 16).prior).end_date
      = Date.pred (monthlyWithEndDateAndStartDay ⟨2023, 3, 15⟩ 16).start_date
    ∧ ¬((monthlyWithEndDateAndStartDay ⟨2023, 3, 15⟩ 16).contains_date ⟨2023, 3, 10⟩
        ∧ ((monthlyWithEndDateAndStartDay ⟨2023, 3, 15⟩ 16).next).contains_date
            ⟨2023, 3, 10⟩) := by
  obtain ⟨c1, c2, _, c4, _, _⟩ :=
    monthly_adjacency (monthlyWithEndDateAndStartDay ⟨2023, 3, 15⟩ 16) 16 rfl rfl
      (by decide) (by decide)
  exact ⟨c1, c2, c4 ⟨2023, 3, 10⟩⟩

/-! ### Claim C5: the custom-anchor monthly shape -/

theorem nextYM_sum (y m : Int) :
    12 * (nextYM y m).1 + (nextYM y m).2 = 12 * y + m + 1 := by
  unfold nextYM
  split_ifs with h
  · dsimp only; omega
  · dsimp only; omega

theorem nextYM_month_bounds (y m : Int) (h1 : 1 ≤ m) (h2 : m ≤ 12) :
    1 ≤ (nextYM y m).2 ∧ (nextYM y m).2 ≤ 12 := by
  unfold nextYM
  split_ifs with h
  · dsimp only; omega
  · dsimp only; omega

theorem prevYM_sum (y m : Int) :
    12 * (prevYM y m).1 + (prevYM y m).2 = 12 * y + m - 1 := by
  unfold prevYM
  split_ifs with h
  · dsimp only; omega
  · dsimp only; omega

theorem prevYM_month_bounds (y m : Int) (h1 : 1 ≤ m) (h2 : m ≤ 12) :
    1 ≤ (prevYM y m).2 ∧ (prevYM y m).2 ≤ 12 := by
  unfold prevYM
  split_ifs with h
  · dsimp only; omega
  · dsimp only; omega

theorem nextYM_prevYM (y m : Int) (h1 : 1 ≤ m) (h2 : m ≤ 12) :
    nextYM (prevYM y m).1 (prevYM y m).2 = (y, m) := by
  unfold prevYM nextYM
  split_ifs with h h12 h12
  · dsimp only at *
    rw [Prod.mk.injEq]
    omega
  · dsimp only at *
    omega
  · dsimp only at *
    omega
  · dsimp only at *
    rw [Prod.mk.injEq]
    omega

theorem monthlyShape_next (k : Int) (r : DateRange) (hk2 : 2 ≤ k) (hk28 : k ≤ 28)
    (h : monthlyShape k r) : monthlyShape k r.next := by
  obtain ⟨hnav, hsd, hvs, hve, hds, hde, hym⟩ := h
  obtain ⟨hs1, hs2, hs3, hs4⟩ := hvs
  obtain ⟨he1, he2, he3, he4⟩ := hve
  have hdim_e := daysInMonth_ge r.end_date.year r.end_date.month he1 he2
  have hb := nextYM_month_bounds r.end_date.year r.end_date.month he1 he2
  have hdim_t := daysInMonth_ge (nextYM r.end_date.year r.end_date.month).1
      (nextYM r.end_date.year r.end_date.month).2 hb.1 hb.2
  rw [next_monthly r hnav]
  unfold monthlyNext
  rw [hsd]
  rw [if_neg (by simp only [Option.getD_some]; omega)]
  have hsucc : Date.succ r.end_date
      = ⟨r.end_date.year, r.end_date.month, r.end_date.day + 1⟩ := by
    unfold Date.succ
    rw [if_pos (by omega)]
  have hadd : add_months r.end_date 1
      = ⟨(nextYM r.end_date.year r.end_date.month).1,
         (nextYM r.end_date.year r.end_date.month).2, r.end_date.day⟩ :=
    add_months_small_day _ _ _ _ hb.1 hb.2 (nextYM_sum _ _) (by omega)
  rw [hsucc, hadd]
  unfold monthlyShape DateRange.newWithPriorNextStartDay
  dsimp only
  refine ⟨rfl, rfl, ?_, ?_, by omega, by omega, ?_⟩
  · exact (valid_mk _ _ _).mpr ⟨he1, he2, by omega, by omega⟩
  · exact (valid_mk _ _ _).mpr ⟨hb.1, hb.2, by omega, by omega⟩
  · exact Prod.mk.eta

theorem monthlyShape_prior (k : Int) (r : DateRange) (hk2 : 2 ≤ k) (hk28 : k ≤ 28)
    (h : monthlyShape k r) : monthlyShape k r.prior := by
  obtain ⟨hnav, hsd, hvs, hve, hds, hde, hym⟩ := h
  obtain ⟨hs1, hs2, hs3, hs4⟩ := hvs
  obtain ⟨he1, he2, he3, he4⟩ := hve
  have hdim_s := daysInMonth_ge r.start_date.year r.start_date.month hs1 hs2
  have hb := prevYM_month_bounds r.start_date.year r.start_date.month hs1 hs2
  have hdim_t := daysInMonth_ge (prevYM r.start_date.year r.start_date.month).1
      (prevYM r.start_date.year r.start_date.month).2 hb.1 hb.2
  rw [prior_monthly r hnav]
  unfold monthlyPrior
  rw [hsd]
  rw [if_neg (by simp only [Option.getD_some]; omega)]
  have hpred : Date.pred r.start_date
      = ⟨r.start_date.year, r.start_date.month, r.start_date.day - 1⟩ := by
    unfold Date.pred
    rw [if_pos (by omega)]
  have hsub : subtract_months r.start_date 1
      = ⟨(prevYM r.start_date.year r.start_date.month).1,
         (prevYM r.start_date.year r.start_date.month).2, r.start_date.day⟩ := by
    unfold subtract_months
    refine add_months_small_day _ _ _ _ hb.1 hb.2 ?_ (by omega)
    have := prevYM_sum r.start_date.year r.start_date.month
    omega
  rw [hpred, hsub]
  unfold monthlyShape DateRange.newWithPriorNextStartDay
  dsimp only
  refine ⟨rfl, rfl, ?_, ?_, by omega, by omega, ?_⟩
  · exact (valid_mk _ _ _).mpr ⟨hb.1, hb.2, by omega, by omega⟩
  · exact (valid_mk _ _ _).mpr ⟨hs1, hs2, by omega, by omega⟩
  · exact (nextYM_prevYM r.start_date.year r.start_date.month hs1 hs2).symm

/-- C5 counterexample for anchor day 31: the range 2023-03-31..2023-04-30
has anchor 31, starts on the 31st of March and ends on the 30th of April
(the `(k-1)`-th of the following month), yet `next` produces
2023-05-01..2023-05-30, which starts on the 1st, not the 31st: the claimed
invariant fails for anchors above 28. -/
theorem monthly_anchor31_cex :
    monthlyShape 31 (DateRange.mk ⟨2023, 3, 31⟩ ⟨2023, 4, 30⟩ 31 (some .monthly) (some 31))
    ∧ ¬ monthlyShape 31
        (DateRange.mk ⟨2023, 3, 31⟩ ⟨2023, 4, 30⟩ 31 (some .monthly) (some 31)).next
    ∧ ((DateRange.mk ⟨2023, 3, 31⟩ ⟨2023, 4, 30⟩ 31
        (some .monthly) (some 31)).next).start_date = ⟨2023, 5, 1⟩ := by
  decide

/-- C5 (amended): for anchor days `k` with `2 ≤ k ≤ 28`, every range
reachable from a well-shaped anchor-`k` monthly range by any word of
`next`/`prior` steps again starts on the `k`-th of some month and ends on
the `(k-1)`-th of the following month; and concretely
`with_end_date_and_start_day(2023-03-15, 16)` starts 2023-02-16 with
length 28. For `k ∈ {29, 30, 31}` the invariant fails
(see `monthly_anchor31_cex`). -/
theorem monthly_anchor_shape_invariant (k : Int) (r : DateRange) (steps : List Bool)
    (hk2 : 2 ≤ k) (hk28 : k ≤ 28) (hr : monthlyShape k r) :
    monthlyShape k (applySteps steps r)
    ∧ (monthlyWithEndDateAndStartDay ⟨2023, 3, 15⟩ 16).start_date = ⟨2023, 2, 16⟩
    ∧ (monthlyWithEndDateAndStartDay ⟨2023, 3, 15⟩ 16).len = 28 := by
  refine ⟨?_, by decide, by decide⟩
  induction steps generalizing r with
  | nil => exact hr
  | cons b rest ih =>
    unfold applySteps
    cases b
    · exact ih (r.prior) (monthlyShape_prior k r hk2 hk28 hr)
    · exact ih (r.next) (monthlyShape_next k r hk2 hk28 hr)

/-- Witness for C5: two forward steps and one backward step from the
anchor-16 range 2023-02-16..2023-03-15 stay in shape. -/
theorem monthly_anchor_shape_witness :
    monthlyShape 16 (applySteps [true, true, false]
      (monthlyWithEndDateAndStartDay ⟨2023, 3, 15⟩ 16))
    ∧ (monthlyWithEndDateAndStartDay ⟨2023, 3, 15⟩ 16).start_date = ⟨2023, 2, 16⟩
    ∧ (monthlyWithEndDateAndStartDay ⟨2023, 3, 15⟩ 16).len = 28 :=
  monthly_anchor_shape_invariant 16 (monthlyWithEndDateAndStartDay ⟨2023, 3, 15⟩ 16)
    [true, true, false] (by omega) (by omega) (by decide)

/-! ### Claim C8: `date_at` as a zero-based day lookup -/

theorem datesLoop_eq (f : Nat) : ∀ cur last : Date, cur.Valid →
    toRd last + 1 - toRd cur = f →
    datesLoop f cur last = (List.range f).map (fun i => Date.succ^[i] cur) := by
  induction f with
  | zero =>
    intro cur last hv hgap
    simp [datesLoop]
  | succ f ih =>
    intro cur last hv hgap
    unfold datesLoop
    rw [if_pos (by unfold Date.le; omega)]
    rw [ih cur.succ last (valid_succ cur hv) (by rw [toRd_succ cur hv]; omega)]
    rw [List.range_succ_eq_map, List.map_cons, List.map_map]
    simp only [Function.iterate_zero, id_eq]
    congr 1

/-- C8: for every range with valid bounds, `start <= end` and a
consistent cached length, `date_at(i)` is `some (start + i days)` when
`i < len()` and `none` (never a panic) when `i >= len()`. -/
theorem date_at_spec (r : DateRange) (i : Nat)
    (hs : r.start_date.Valid)
    (hle : toRd r.start_date ≤ toRd r.end_date)
    (hlen : r.len = toRd r.end_date - toRd r.start_date + 1) :
    (i < r.len.toNat → r.date_at i = some (Date.succ^[i] r.start_date))
    ∧ (r.len.toNat ≤ i → r.date_at i = none) := by
  have hd : r.dates
      = (List.range (toRd r.end_date + 1 - toRd r.start_date).toNat).map
          (fun j => Date.succ^[j] r.start_date) :=
    datesLoop_eq _ _ _ hs (by omega)
  unfold DateRange.date_at
  rw [hd]
  constructor
  · intro hi
    rw [List.getElem?_map, List.getElem?_range (by omega)]
    rfl
  · intro hi
    rw [List.getElem?_map, List.getElem?_eq_none (by simp [List.length_range]; omega)]
    rfl

/-- Witness for C8 on the range 2023-03-28..2023-04-02 (6 days): index 5
is the last day 2023-04-02, index 6 is out of bounds and yields `none`. -/
theorem date_at_spec_witness :
    ((5 : Nat) < (DateRange.new ⟨2023, 3, 28⟩ ⟨2023, 4, 2⟩).len.toNat →
      (DateRange.new ⟨2023, 3, 28⟩ ⟨2023, 4, 2⟩).date_at 5
        = some (Date.succ^[5] ⟨2023, 3, 28⟩))
    ∧ ((DateRange.new ⟨2023, 3, 28⟩ ⟨2023, 4, 2⟩).len.toNat ≤ (6 : Nat) →
      (DateRange.new ⟨2023, 3, 28⟩ ⟨2023, 4, 2⟩).date_at 6 = none) :=
  ⟨(date_at_spec (DateRange.new ⟨2023, 3, 28⟩ ⟨2023, 4, 2⟩) 5 (by decide) (by decide)
      (by decide)).1,
   (date_at_spec (DateRange.new ⟨2023, 3, 28⟩ ⟨2023, 4, 2⟩) 6 (by decide) (by decide)
      (by decide)).2⟩

/-! ### Claim C3: round trips of the uniform-step families -/

theorem Date.ext_fields (a b : Date) (h1 : a.year = b.year) (h2 : a.month = b.month)
    (h3 : a.day = b.day) : a = b := by
  rcases a with ⟨ay, am, ad⟩
  rcases b with ⟨by_, bm, bd⟩
  dsimp only at h1 h2 h3
  rw [h1, h2, h3]

theorem last_day_of_month_eq2 (x : Date) (h1 : 1 ≤ x.month) (h2 : x.month ≤ 12) :
    last_day_of_month x = ⟨x.year, x.month, daysInMonth x.year x.month⟩ := by
  rcases x with ⟨y, m, dd⟩
  exact last_day_of_month_eq y m h1 h2 dd

theorem createNew_start (r : DateRange) (s e : Date) :
    (r.createNew s e).start_date = s := rfl

theorem createNew_end (r : DateRange) (s e : Date) :
    (r.createNew s e).end_date = e := rfl

theorem createNew_nav (r : DateRange) (s e : Date) :
    (r.createNew s e).nav = r.nav := rfl

theorem prevYM_nextYM (y m : Int) (h1 : 1 ≤ m) (h2 : m ≤ 12) :
    prevYM (nextYM y m).1 (nextYM y m).2 = (y, m) := by
  unfold nextYM prevYM
  split_ifs with h h1' h1'
  · dsimp only at *
    rw [Prod.mk.injEq]
    omega
  · dsimp only at *
    omega
  · dsimp only at *
    omega
  · dsimp only at *
    rw [Prod.mk.injEq]
    omega

theorem add_months_keep_day (d : Date) (n t : Int) (h : d.Valid)
    (hnf : ¬(d.month = 2 ∧ d.day = 29)) (hn : n = 12 * t) :
    add_months d n = ⟨d.year + t, d.month, d.day⟩ := by
  obtain ⟨hm1, hm2, hd1, hd2⟩ := h
  have hdim : d.day ≤ daysInMonth (d.year + t) d.month := by
    by_cases hm : d.month = 2
    · have h28 := daysInMonth_ge (d.year + t) 2 (by omega) (by omega)
      have hle29 : daysInMonth d.year 2 ≤ 29 := by
        unfold daysInMonth
        norm_num
        split_ifs <;> omega
      have hne : d.day ≠ 29 := fun hh => hnf ⟨hm, hh⟩
      rw [hm] at hd2 ⊢
      omega
    · rw [daysInMonth_ne_two (d.year + t) d.year d.month hm1 hm2 hm]
      exact hd2
  exact add_months_small_day d n (d.year + t) d.month hm1 hm2 (by omega) hdim

/-- Round trip for the default length-shift strategy (weekly, bi-weekly
and every `DateRange::new` range). -/
theorem roundtrip_default (r : DateRange) (hnav : r.nav = none)
    (hvs : r.start_date.Valid) (hve : r.end_date.Valid)
    (hle : toRd r.start_date ≤ toRd r.end_date)
    (hlen : r.len = toRd r.end_date - toRd r.start_date + 1) :
    ((r.prior).next.start_date = r.start_date ∧ (r.prior).next.end_date = r.end_date)
    ∧ ((r.next).prior.start_date = r.start_date
        ∧ (r.next).prior.end_date = r.end_date) := by
  have hp := prior_default r hnav
  have hpnav : (r.prior).nav = none := by rw [hp]; exact hnav
  have hps : (r.prior).start_date = addDaysI r.start_date (-r.len) := by rw [hp]; rfl
  have hpe : (r.prior).end_date = addDaysI r.end_date (-r.len) := by rw [hp]; rfl
  have hplen : (r.prior).len = r.len := by
    rw [hp]
    show toRd (addDaysI r.end_date (-r.len)) - toRd (addDaysI r.start_date (-r.len)) + 1
        = r.len
    rw [toRd_addDaysI _ _ hve, toRd_addDaysI _ _ hvs]
    omega
  have hn := next_default r hnav
  have hnnav : (r.next).nav = none := by rw [hn]; exact hnav
  have hns : (r.next).start_date = addDaysI r.start_date r.len := by rw [hn]; rfl
  have hne : (r.next).end_date = addDaysI r.end_date r.len := by rw [hn]; rfl
  have hnlen : (r.next).len = r.len := by
    rw [hn]
    show toRd (addDaysI r.end_date r.len) - toRd (addDaysI r.start_date r.len) + 1 = r.len
    rw [toRd_addDaysI _ _ hve, toRd_addDaysI _ _ hvs]
    omega
  have hLpos : 0 ≤ r.len := by omega
  constructor
  · rw [next_default (r.prior) hpnav, createNew_start, createNew_end, hplen, hps, hpe]
    exact ⟨addDaysI_neg_cancel _ _ hLpos hvs, addDaysI_neg_cancel _ _ hLpos hve⟩
  · rw [prior_default (r.next) hnnav, createNew_start, createNew_end, hnlen, hns, hne]
    exact ⟨addDaysI_pos_cancel _ _ hLpos hvs, addDaysI_pos_cancel _ _ hLpos hve⟩

/-- Round trip for the semi-annual family on never-clamped bounds. -/
theorem roundtrip_semiAnnual (r : DateRange) (hnav : r.nav = some NavKind.semiAnnual)
    (hvs : r.start_date.Valid) (hve : r.end_date.Valid)
    (hds : r.start_date.day ≤ 28) (hde : r.end_date.day ≤ 28) :
    ((r.prior).next.start_date = r.start_date ∧ (r.prior).next.end_date = r.end_date)
    ∧ ((r.next).prior.start_date = r.start_date
        ∧ (r.next).prior.end_date = r.end_date) := by
  have hp := prior_semiAnnual r hnav
  have hpnav : (r.prior).nav = some NavKind.semiAnnual := by rw [hp]; rfl
  have hn := next_semiAnnual r hnav
  have hnnav : (r.next).nav = some NavKind.semiAnnual := by rw [hn]; rfl
  constructor
  · rw [next_semiAnnual (r.prior) hpnav, hp]
    unfold semiAnnualNext semiAnnualPrior DateRange.newWithPriorNext
    dsimp only
    unfold subtract_months
    constructor
    · have hc := add_months_cancel r.start_date (-6) hvs hds
      simpa using hc
    · have hc := add_months_cancel r.end_date (-6) hve hde
      simpa using hc
  · rw [prior_semiAnnual (r.next) hnnav, hn]
    unfold semiAnnualNext semiAnnualPrior DateRange.newWithPriorNext
    dsimp only
    unfold subtract_months
    exact ⟨add_months_cancel r.start_date 6 hvs hds,
      add_months_cancel r.end_date 6 hve hde⟩

/-- Characterisation of the quarterly end computation
`last_day_of_month(add_months(first_day_of_month(x), n))`. -/
theorem quarterly_end_step (x : Date) (n : Int) (h1 : 1 ≤ x.month) (h2 : x.month ≤ 12) :
    1 ≤ (last_day_of_month (add_months (first_day_of_month x) n)).month
    ∧ (last_day_of_month (add_months (first_day_of_month x) n)).month ≤ 12
    ∧ 12 * (last_day_of_month (add_months (first_day_of_month x) n)).year
        + (last_day_of_month (add_months (first_day_of_month x) n)).month
      = 12 * x.year + x.month + n
    ∧ (last_day_of_month (add_months (first_day_of_month x) n)).day
      = daysInMonth (last_day_of_month (add_months (first_day_of_month x) n)).year
          (last_day_of_month (add_months (first_day_of_month x) n)).month := by
  obtain ⟨c1, c2, c3, c4⟩ := add_months_char (first_day_of_month x) n
  have hfy : (first_day_of_month x).year = x.year := rfl
  have hfm : (first_day_of_month x).month = x.month := rfl
  rw [hfy, hfm] at c3
  rw [last_day_of_month_eq2 _ c1 c2]
  dsimp only
  exact ⟨c1, c2, c3, rfl⟩

/-- Round trip for the quarterly family on whole-month ranges. -/
theorem roundtrip_quarterly (r : DateRange) (hnav : r.nav = some NavKind.quarterly)
    (hvs : r.start_date.Valid) (hve : r.end_date.Valid)
    (hds : r.start_date.day = 1)
    (hde : r.end_date.day = daysInMonth r.end_date.year r.end_date.month) :
    ((r.prior).next.start_date = r.start_date ∧ (r.prior).next.end_date = r.end_date)
    ∧ ((r.next).prior.start_date = r.start_date
        ∧ (r.next).prior.end_date = r.end_date) := by
  obtain ⟨he1, he2, he3, he4⟩ := hve
  have hp := prior_quarterly r hnav
  have hpnav : (r.prior).nav = some NavKind.quarterly := by rw [hp]; rfl
  have hn := next_quarterly r hnav
  have hnnav : (r.next).nav = some NavKind.quarterly := by rw [hn]; rfl
  constructor
  · rw [next_quarterly (r.prior) hpnav, hp]
    unfold quarterlyNext quarterlyPrior DateRange.newWithPriorNext
    dsimp only
    unfold subtract_months
    constructor
    · have hc := add_months_cancel r.start_date (-3) hvs (by omega)
      simpa using hc
    · obtain ⟨x1, x2, x3, x4⟩ := quarterly_end_step r.end_date (-3) he1 he2
      obtain ⟨y1, y2, y3, y4⟩ := quarterly_end_step
        (last_day_of_month (add_months (first_day_of_month r.end_date) (-3))) 3 x1 x2
      have hYy : (last_day_of_month (add_months (first_day_of_month
          (last_day_of_month (add_months (first_day_of_month r.end_date) (-3)))) 3)).year
          = r.end_date.year := by omega
      have hYm : (last_day_of_month (add_months (first_day_of_month
          (last_day_of_month (add_months (first_day_of_month r.end_date) (-3)))) 3)).month
          = r.end_date.month := by omega
      refine Date.ext_fields _ _ hYy hYm ?_
      rw [y4, hYy, hYm, hde]
  · rw [prior_quarterly (r.next) hnnav, hn]
    unfold quarterlyNext quarterlyPrior DateRange.newWithPriorNext
    dsimp only
    unfold subtract_months
    constructor
    · exact add_months_cancel r.start_date 3 hvs (by omega)
    · obtain ⟨x1, x2, x3, x4⟩ := quarterly_end_step r.end_date 3 he1 he2
      obtain ⟨y1, y2, y3, y4⟩ := quarterly_end_step
        (last_day_of_month (add_months (first_day_of_month r.end_date) 3)) (-3) x1 x2
      have hYy : (last_day_of_month (add_months (first_day_of_month
          (last_day_of_month (add_months (first_day_of_month r.end_date) 3))) (-3))).year
          = r.end_date.year := by omega
      have hYm : (last_day_of_month (add_months (first_day_of_month
          (last_day_of_month (add_months (first_day_of_month r.end_date) 3))) (-3))).month
          = r.end_date.month := by omega
      refine Date.ext_fields _ _ hYy hYm ?_
      rw [y4, hYy, hYm, hde]

/-- Round trip for the monthly family with anchor day 1 on whole-month
ranges. -/
theorem roundtrip_monthly1 (r : DateRange) (hnav : r.nav = some NavKind.monthly)
    (hsd : r.start_day = some 1) (hvs : r.start_date.Valid)
    (hds : r.start_date.day = 1)
    (hee : r.end_date = ⟨r.start_date.year, r.start_date.month,
        daysInMonth r.start_date.year r.start_date.month⟩) :
    ((r.prior).next.start_date = r.start_date ∧ (r.prior).next.end_date = r.end_date)
    ∧ ((r.next).prior.start_date = r.start_date
        ∧ (r.next).prior.end_date = r.end_date) := by
  obtain ⟨hs1, hs2, hs3, hs4⟩ := hvs
  have hvs' : r.start_date.Valid := ⟨hs1, hs2, hs3, hs4⟩
  have hdim_s := daysInMonth_ge r.start_date.year r.start_date.month hs1 hs2
  have hve : r.end_date.Valid := by
    rw [hee]
    exact (valid_mk _ _ _).mpr ⟨hs1, hs2, by omega, by omega⟩
  have hpr : r.prior = DateRange.newWithPriorNextStartDay
      ⟨(Date.pred r.start_date).year, (Date.pred r.start_date).month, 1⟩
      (Date.pred r.start_date) .monthly (some 1) := by
    rw [prior_monthly r hnav]
    unfold monthlyPrior
    rw [hsd, if_pos (show (some (1 : Int)).getD 0 = 1 from rfl)]
  have hpnav : (r.prior).nav = some NavKind.monthly := by rw [hpr]; rfl
  have hpsd : (r.prior).start_day = some 1 := by rw [hpr]; rfl
  have hpe : (r.prior).end_date = Date.pred r.start_date := by rw [hpr]; rfl
  have hnr : r.next = DateRange.newWithPriorNextStartDay (Date.succ r.end_date)
      (last_day_of_month (Date.succ r.end_date)) .monthly (some 1) := by
    rw [next_monthly r hnav]
    unfold monthlyNext
    rw [hsd, if_pos (show (some (1 : Int)).getD 0 = 1 from rfl)]
  have hnnav : (r.next).nav = some NavKind.monthly := by rw [hnr]; rfl
  have hnsd : (r.next).start_day = some 1 := by rw [hnr]; rfl
  have hns : (r.next).start_date = Date.succ r.end_date := by rw [hnr]; rfl
  constructor
  · rw [next_monthly (r.prior) hpnav]
    unfold monthlyNext
    rw [hpsd, if_pos (show (some (1 : Int)).getD 0 = 1 from rfl), hpe]
    unfold DateRange.newWithPriorNextStartDay
    dsimp only
    constructor
    · exact succ_pred _ hvs'
    · rw [succ_pred _ hvs', last_day_of_month_eq2 _ hs1 hs2, hee]
  · rw [prior_monthly (r.next) hnnav]
    unfold monthlyPrior
    rw [hnsd, if_pos (show (some (1 : Int)).getD 0 = 1 from rfl), hns]
    unfold DateRange.newWithPriorNextStartDay
    dsimp only
    constructor
    · rw [pred_succ _ hve]
      refine Date.ext_fields _ _ ?_ ?_ ?_ <;> dsimp only
      · rw [hee]
      · rw [hee]
      · omega
    · exact pred_succ _ hve

/-- Round trip for the monthly family with anchor day 2..28 on ranges in
the anchor shape. -/
theorem roundtrip_monthlyK (k : Int) (r : DateRange) (hk2 : 2 ≤ k) (hk28 : k ≤ 28)
    (h : monthlyShape k r) :
    ((r.prior).next.start_date = r.start_date ∧ (r.prior).next.end_date = r.end_date)
    ∧ ((r.next).prior.start_date = r.start_date
        ∧ (r.next).prior.end_date = r.end_date) := by
  obtain ⟨hnav, hsd, hvs, hve, hds, hde, hym⟩ := h
  obtain ⟨hs1, hs2, hs3, hs4⟩ := hvs
  obtain ⟨he1, he2, he3, he4⟩ := hve
  have hvs' : r.start_date.Valid := ⟨hs1, hs2, hs3, hs4⟩
  have hve' : r.end_date.Valid := ⟨he1, he2, he3, he4⟩
  have hdim_s := daysInMonth_ge r.start_date.year r.start_date.month hs1 hs2
  have hdim_e := daysInMonth_ge r.end_date.year r.end_date.month he1 he2
  have hymy : r.end_date.year = (nextYM r.start_date.year r.start_date.month).1 :=
    congrArg Prod.fst hym
  have hymm : r.end_date.month = (nextYM r.start_date.year r.start_date.month).2 :=
    congrArg Prod.snd hym
  have hpr : r.prior = DateRange.newWithPriorNextStartDay
      (subtract_months r.start_date 1) (Date.pred r.start_date) .monthly (some k) := by
    rw [prior_monthly r hnav]
    unfold monthlyPrior
    rw [hsd, if_neg (by simp only [Option.getD_some]; omega)]
  have hpnav : (r.prior).nav = some NavKind.monthly := by rw [hpr]; rfl
  have hpsd : (r.prior).start_day = some k := by rw [hpr]; rfl
  have hpe : (r.prior).end_date = Date.pred r.start_date := by rw [hpr]; rfl
  have hnr : r.next = DateRange.newWithPriorNextStartDay (Date.succ r.end_date)
      (add_months r.end_date 1) .monthly (some k) := by
    rw [next_monthly r hnav]
    unfold monthlyNext
    rw [hsd, if_neg (by simp only [Option.getD_some]; omega)]
  have hnnav : (r.next).nav = some NavKind.monthly := by rw [hnr]; rfl
  have hnsd : (r.next).start_day = some k := by rw [hnr]; rfl
  have hns : (r.next).start_date = Date.succ r.end_date := by rw [hnr]; rfl
  have hpreds : Date.pred r.start_date
      = ⟨r.start_date.year, r.start_date.month, r.start_date.day - 1⟩ := by
    unfold Date.pred
    rw [if_pos (by omega)]
  have hsucce : Date.succ r.end_date
      = ⟨r.end_date.year, r.end_date.month, r.end_date.day + 1⟩ := by
    unfold Date.succ
    rw [if_pos (by omega)]
  constructor
  · rw [next_monthly (r.prior) hpnav]
    unfold monthlyNext
    rw [hpsd, if_neg (by simp only [Option.getD_some]; omega), hpe]
    unfold DateRange.newWithPriorNextStartDay
    dsimp only
    constructor
    · exact succ_pred _ hvs'
    · rw [hpreds]
      have hb := nextYM_month_bounds r.start_date.year r.start_date.month hs1 hs2
      have hdim_t := daysInMonth_ge (nextYM r.start_date.year r.start_date.month).1
        (nextYM r.start_date.year r.start_date.month).2 hb.1 hb.2
      have hstep : add_months ⟨r.start_date.year, r.start_date.month, r.start_date.day - 1⟩ 1
          = ⟨(nextYM r.start_date.year r.start_date.month).1,
             (nextYM r.start_date.year r.start_date.month).2, r.start_date.day - 1⟩ :=
        add_months_small_day _ _ _ _ hb.1 hb.2
          (by have := nextYM_sum r.start_date.year r.start_date.month; dsimp only; omega)
          (by dsimp only; omega)
      rw [hstep]
      refine (Date.ext_fields _ _ ?_ ?_ ?_).symm <;> dsimp only
      · exact hymy
      · exact hymm
      · omega
  · rw [prior_monthly (r.next) hnnav]
    unfold monthlyPrior
    rw [hnsd, if_neg (by simp only [Option.getD_some]; omega), hns]
    unfold DateRange.newWithPriorNextStartDay
    dsimp only
    constructor
    · rw [hsucce]
      unfold subtract_months
      have hb := prevYM_month_bounds r.end_date.year r.end_date.month he1 he2
      have hdim_p := daysInMonth_ge (prevYM r.end_date.year r.end_date.month).1
        (prevYM r.end_date.year r.end_date.month).2 hb.1 hb.2
      have hstep : add_months ⟨r.end_date.year, r.end_date.month, r.end_date.day + 1⟩ (-1)
          = ⟨(prevYM r.end_date.year r.end_date.month).1,
             (prevYM r.end_date.year r.end_date.month).2, r.end_date.day + 1⟩ :=
        add_months_small_day _ _ _ _ hb.1 hb.2
          (by have := prevYM_sum r.end_date.year r.end_date.month; dsimp only; omega)
          (by dsimp only; omega)
      rw [hstep]
      have hpn : prevYM r.end_date.year r.end_date.month
          = (r.start_date.year, r.start_date.month) := by
        rw [hymy, hymm]
        exact prevYM_nextYM r.start_date.year r.start_date.month hs1 hs2
      refine Date.ext_fields _ _ ?_ ?_ ?_ <;> dsimp only
      · exact congrArg Prod.fst hpn
      · exact congrArg Prod.snd hpn
      · omega
    · exact pred_succ _ hve'

/-- Round trip for the annual family on non-Feb-29 starts with the
family's own end rule. -/
theorem roundtrip_annual (r : DateRange) (hnav : r.nav = some NavKind.annual)
    (hvs : r.start_date.Valid)
    (hnf : ¬(r.start_date.month = 2 ∧ r.start_date.day = 29))
    (hee : r.end_date = end_for_start r.start_date) :
    ((r.prior).next.start_date = r.start_date ∧ (r.prior).next.end_date = r.end_date)
    ∧ ((r.next).prior.start_date = r.start_date
        ∧ (r.next).prior.end_date = r.end_date) := by
  have hs' : subtract_years r.start_date 1
      = ⟨r.start_date.year + (-1), r.start_date.month, r.start_date.day⟩ := by
    unfold subtract_years subtract_months
    exact add_months_keep_day r.start_date (-(1 * 12)) (-1) hvs hnf (by norm_num)
  have hvs' : (subtract_years r.start_date 1).Valid := by
    unfold subtract_years subtract_months
    exact add_months_valid _ _ hvs
  have hnf' : ¬((subtract_years r.start_date 1).month = 2
      ∧ (subtract_years r.start_date 1).day = 29) := by
    rw [hs']
    exact hnf
  have hback : add_years (subtract_years r.start_date 1) 1 = r.start_date := by
    unfold add_years
    rw [add_months_keep_day _ (1 * 12) 1 hvs' hnf' (by norm_num), hs']
    refine Date.ext_fields _ _ ?_ ?_ ?_ <;> dsimp only <;> omega
  have hs'' : add_years r.start_date 1
      = ⟨r.start_date.year + 1, r.start_date.month, r.start_date.day⟩ := by
    unfold add_years
    exact add_months_keep_day r.start_date (1 * 12) 1 hvs hnf (by norm_num)
  have hvs'' : (add_years r.start_date 1).Valid := by
    unfold add_years
    exact add_months_valid _ _ hvs
  have hnf'' : ¬((add_years r.start_date 1).month = 2
      ∧ (add_years r.start_date 1).day = 29) := by
    rw [hs'']
    exact hnf
  have hfwd : subtract_years (add_years r.start_date 1) 1 = r.start_date := by
    unfold subtract_years subtract_months
    rw [add_months_keep_day _ (-(1 * 12)) (-1) hvs'' hnf'' (by norm_num), hs'']
    refine Date.ext_fields _ _ ?_ ?_ ?_ <;> dsimp only <;> omega
  have hp := prior_annual r hnav
  have hpnav : (r.prior).nav = some NavKind.annual := by rw [hp]; rfl
  have hn := next_annual r hnav
  have hnnav : (r.next).nav = some NavKind.annual := by rw [hn]; rfl
  constructor
  · rw [next_annual (r.prior) hpnav, hp]
    unfold annualNext annualPrior DateRange.newWithPriorNext
    dsimp only
    refine ⟨hback, ?_⟩
    rw [hback]
    exact hee.symm
  · rw [prior_annual (r.next) hnnav, hn]
    unfold annualNext annualPrior DateRange.newWithPriorNext
    dsimp only
    refine ⟨hfwd, ?_⟩
    rw [hfwd]
    exact hee.symm

/-- C3 counterexample. Semi-annual: the range built by
`with_start_date(2023-03-01)` is (2023-03-01, 2023-08-31); `prior` clamps
the end to 2023-02-28, and `next` of that lands on 2023-08-28, so
`next(prior(r))` does not restore the bounds of `r`. Annual: the range
built by `with_end_date(2020-02-28)` is (2019-03-01, 2020-02-28) — its
start is not a Feb 29 — yet both `next(prior(r))` and `prior(next(r))`
recompute the end as `end_for_start(2019-03-01)` = 2020-02-29, so the
round trip also fails for annual ranges whose end is not the family's own
end-for-start value. -/
theorem semi_annual_round_trip_cex :
    (((semiAnnualWithStartDate ⟨2023, 3, 1⟩).prior).next.end_date
        ≠ (semiAnnualWithStartDate ⟨2023, 3, 1⟩).end_date
      ∧ (semiAnnualWithStartDate ⟨2023, 3, 1⟩).end_date = ⟨2023, 8, 31⟩
      ∧ ((semiAnnualWithStartDate ⟨2023, 3, 1⟩).prior).next.end_date = ⟨2023, 8, 28⟩
      ∧ ((semiAnnualWithStartDate ⟨2023, 3, 1⟩).next).prior.end_date = ⟨2023, 8, 29⟩)
    ∧ ((annualWithEndDate ⟨2020, 2, 28⟩).start_date = ⟨2019, 3, 1⟩
      ∧ (annualWithEndDate ⟨2020, 2, 28⟩).end_date = ⟨2020, 2, 28⟩
      ∧ ((annualWithEndDate ⟨2020, 2, 28⟩).prior).next.end_date = ⟨2020, 2, 29⟩
      ∧ ((annualWithEndDate ⟨2020, 2, 28⟩).prior).next.end_date
          ≠ (annualWithEndDate ⟨2020, 2, 28⟩).end_date
      ∧ ((annualWithEndDate ⟨2020, 2, 28⟩).next).prior.end_date
          ≠ (annualWithEndDate ⟨2020, 2, 28⟩).end_date) := by
  decide

/-- C3 (amended): `next(prior(r))` and `prior(next(r))` restore the exact
bounds of `r` for every range of a uniform-step family described by
`UniformRange`: every default length-shift range (weekly, bi-weekly),
semi-annual ranges whose two bounds both have day-of-month at most 28,
whole-month quarterly ranges, whole-month monthly ranges with anchor 1,
anchor-shape monthly ranges with anchor 2..28, and annual ranges with a
non-Feb-29 start whose end equals the family's own end rule
`end_for_start(start)` (as produced by `with_start_date` and by every
`prior`/`next` step). Both restrictions beyond the claim's text are
forced by `semi_annual_round_trip_cex`: semi-annual ranges with a bound
on day 29..31 drift, and the annual family recomputes the end from the
start on every step, so an annual range such as
`with_end_date(2020-02-28)` = (2019-03-01, 2020-02-28), whose end is not
`end_for_start` of its start, does not round-trip even though its start
is not a Feb 29. -/
theorem uniform_family_round_trip (r : DateRange) (h : UniformRange r) :
    ((r.prior).next.start_date = r.start_date ∧ (r.prior).next.end_date = r.end_date)
    ∧ ((r.next).prior.start_date = r.start_date
        ∧ (r.next).prior.end_date = r.end_date) := by
  rcases h with ⟨hnav, hvs, hve, hle, hlen⟩ | ⟨hnav, hvs, hve, hds, hde⟩
    | ⟨hnav, hvs, hve, hds, hde⟩ | ⟨hnav, hsd, hvs, hds, hee⟩
    | ⟨hk2, hk28, hsh⟩ | ⟨hnav, hvs, hnf, hee⟩
  · exact roundtrip_default r hnav hvs hve hle hlen
  · exact roundtrip_semiAnnual r hnav hvs hve hds hde
  · exact roundtrip_quarterly r hnav hvs hve hds hde
  · exact roundtrip_monthly1 r hnav hsd hvs hds hee
  · exact roundtrip_monthlyK r.start_date.day r hk2 hk28 hsh
  · exact roundtrip_annual r hnav hvs hnf hee

/-- Witness for C3 on the semi-annual range 2023-01-15..2023-07-14, whose
bounds both stay below day 29. -/
theorem uniform_family_round_trip_witness :
    (((semiAnnualWithStartDate ⟨2023, 1, 15⟩).prior).next.start_date
        = (semiAnnualWithStartDate ⟨2023, 1, 15⟩).start_date
      ∧ ((semiAnnualWithStartDate ⟨2023, 1, 15⟩).prior).next.end_date
        = (semiAnnualWithStartDate ⟨2023, 1, 15⟩).end_date)
    ∧ (((semiAnnualWithStartDate ⟨2023, 1, 15⟩).next).prior.start_date
        = (semiAnnualWithStartDate ⟨2023, 1, 15⟩).start_date
      ∧ ((semiAnnualWithStartDate ⟨2023, 1, 15⟩).next).prior.end_date
        = (semiAnnualWithStartDate ⟨2023, 1, 15⟩).end_date) :=
  uniform_family_round_trip (semiAnnualWithStartDate ⟨2023, 1, 15⟩) (by decide)

/-! ### Claim C1: termination and idempotence of `range_containing_date` -/

theorem rcdLoop_succ (n : Nat) (r : DateRange) (d : Date) :
    rcdLoop (n + 1) r d
      = if r.contains_date d then some r
        else if Date.lt r.end_date d then rcdLoop n r.next d
        else rcdLoop n r.prior d := rfl

theorem rcdLoop_found (n : Nat) (x : DateRange) (d : Date) (h : x.contains_date d) :
    rcdLoop (n + 1) x d = some x := by
  rw [rcdLoop_succ, if_pos h]

theorem rcd_requery (n : Nat) (res : DateRange) (d : Date) (h : res.contains_date d) :
    ∃ res2, rangeContainingDate (n + 1) res d = some res2
      ∧ res2.start_date = res.start_date ∧ res2.end_date = res.end_date := by
  refine ⟨res.createNew res.start_date res.end_date, ?_, rfl, rfl⟩
  unfold rangeContainingDate
  exact rcdLoop_found n _ d h

theorem rcd_forward (d : Date) (Inv : DateRange → Prop)
    (hnext : ∀ x, Inv x → Inv x.next ∧ toRd x.end_date + 1 ≤ toRd x.next.end_date
      ∧ toRd x.next.start_date ≤ toRd x.end_date + 1) :
    ∀ g : Nat, ∀ x : DateRange, Inv x → toRd x.start_date ≤ toRd d →
      toRd d ≤ toRd x.end_date + g →
      ∃ n res, rcdLoop (n + 1) x d = some res ∧ res.contains_date d := by
  intro g
  induction g with
  | zero =>
    intro x hx hs he
    have hc : x.contains_date d := (contains_date_iff x d).mpr ⟨hs, by omega⟩
    exact ⟨0, x, rcdLoop_found 0 x d hc, hc⟩
  | succ g ih =>
    intro x hx hs he
    by_cases hc : x.contains_date d
    · exact ⟨0, x, rcdLoop_found 0 x d hc, hc⟩
    · have hlt : toRd x.end_date < toRd d := by
        rw [contains_date_iff] at hc
        omega
      obtain ⟨hInv, h1, h2⟩ := hnext x hx
      obtain ⟨n, res, hrun, hres⟩ := ih x.next hInv (by omega) (by push_cast at he ⊢; omega)
      refine ⟨n + 1, res, ?_, hres⟩
      rw [rcdLoop_succ, if_neg hc, if_pos (show Date.lt x.end_date d from by
        unfold Date.lt; omega)]
      exact hrun

theorem rcd_backward (d : Date) (Inv : DateRange → Prop)
    (hprior : ∀ x, Inv x → Inv x.prior ∧ toRd x.prior.start_date + 1 ≤ toRd x.start_date
      ∧ toRd x.start_date ≤ toRd x.prior.end_date + 1) :
    ∀ g : Nat, ∀ x : DateRange, Inv x → toRd d ≤ toRd x.end_date →
      toRd x.start_date ≤ toRd d + g →
      ∃ n res, rcdLoop (n + 1) x d = some res ∧ res.contains_date d := by
  intro g
  induction g with
  | zero =>
    intro x hx he hs
    have hc : x.contains_date d := (contains_date_iff x d).mpr ⟨by omega, he⟩
    exact ⟨0, x, rcdLoop_found 0 x d hc, hc⟩
  | succ g ih =>
    intro x hx he hs
    by_cases hc : x.contains_date d
    · exact ⟨0, x, rcdLoop_found 0 x d hc, hc⟩
    · have hlt : toRd d < toRd x.start_date := by
        rw [contains_date_iff] at hc
        omega
      obtain ⟨hInv, h1, h2⟩ := hprior x hx
      obtain ⟨n, res, hrun, hres⟩ := ih x.prior hInv (by omega) (by push_cast at hs ⊢; omega)
      refine ⟨n + 1, res, ?_, hres⟩
      rw [rcdLoop_succ, if_neg hc, if_neg (show ¬ Date.lt x.end_date d from by
        unfold Date.lt; omega)]
      exact hrun

theorem defaultInv_next (x : DateRange)
    (h : x.nav = none ∧ x.start_date.Valid ∧ x.end_date.Valid
      ∧ toRd x.start_date ≤ toRd x.end_date
      ∧ x.len = toRd x.end_date - toRd x.start_date + 1) :
    (x.next.nav = none ∧ x.next.start_date.Valid ∧ x.next.end_date.Valid
      ∧ toRd x.next.start_date ≤ toRd x.next.end_date
      ∧ x.next.len = toRd x.next.end_date - toRd x.next.start_date + 1)
    ∧ toRd x.end_date + 1 ≤ toRd x.next.end_date
    ∧ toRd x.next.start_date ≤ toRd x.end_date + 1 := by
  obtain ⟨hnav, hvs, hve, hle, hlen⟩ := h
  have hn := next_default x hnav
  have hns : x.next.start_date = addDaysI x.start_date x.len := by rw [hn]; rfl
  have hne : x.next.end_date = addDaysI x.end_date x.len := by rw [hn]; rfl
  have hrs : toRd x.next.start_date = toRd x.start_date + x.len := by
    rw [hns, toRd_addDaysI _ _ hvs]
  have hre : toRd x.next.end_date = toRd x.end_date + x.len := by
    rw [hne, toRd_addDaysI _ _ hve]
  refine ⟨⟨by rw [hn]; exact hnav, ?_, ?_, by omega, ?_⟩, by omega, by omega⟩
  · rw [hns]
    exact valid_addDaysI _ _ hvs
  · rw [hne]
    exact valid_addDaysI _ _ hve
  · rw [hn]
    rfl

theorem defaultInv_prior (x : DateRange)
    (h : x.nav = none ∧ x.start_date.Valid ∧ x.end_date.Valid
      ∧ toRd x.start_date ≤ toRd x.end_date
      ∧ x.len = toRd x.end_date - toRd x.start_date + 1) :
    (x.prior.nav = none ∧ x.prior.start_date.Valid ∧ x.prior.end_date.Valid
      ∧ toRd x.prior.start_date ≤ toRd x.prior.end_date
      ∧ x.prior.len = toRd x.prior.end_date - toRd x.prior.start_date + 1)
    ∧ toRd x.prior.start_date + 1 ≤ toRd x.start_date
    ∧ toRd x.start_date ≤ toRd x.prior.end_date + 1 := by
  obtain ⟨hnav, hvs, hve, hle, hlen⟩ := h
  have hp := prior_default x hnav
  have hps : x.prior.start_date = addDaysI x.start_date (-x.len) := by rw [hp]; rfl
  have hpe : x.prior.end_date = addDaysI x.end_date (-x.len) := by rw [hp]; rfl
  have hrs : toRd x.prior.start_date = toRd x.start_date - x.len := by
    rw [hps, toRd_addDaysI _ _ hvs]
    omega
  have hre : toRd x.prior.end_date = toRd x.end_date - x.len := by
    rw [hpe, toRd_addDaysI _ _ hve]
    omega
  refine ⟨⟨by rw [hp]; exact hnav, ?_, ?_, by omega, ?_⟩, by omega, by omega⟩
  · rw [hps]
    exact valid_addDaysI _ _ hvs
  · rw [hpe]
    exact valid_addDaysI _ _ hve
  · rw [hp]
    rfl

/-- C1: if a range's `prior`/`next` navigation is monotonic with
gap-free coverage — expressed by an invariant `Inv` preserved by both
steps, under which `next` strictly advances the end without starting
after `end + 1` and `prior` strictly retreats the start without ending
before `start - 1` — then `range_containing_date(d)` terminates (some
fuel makes the search loop return), the returned range contains `d`, and
re-querying the returned range with the same `d` returns a range with
equal bounds. In particular this holds for every range using the default
length-shift strategy with valid bounds `start <= end` (second
conjunct). -/
theorem range_containing_date_spec :
    (∀ (Inv : DateRange → Prop) (r : DateRange) (d : Date),
      Inv (r.createNew r.start_date r.end_date) →
      (∀ x, Inv x → Inv x.next ∧ toRd x.end_date + 1 ≤ toRd x.next.end_date
        ∧ toRd x.next.start_date ≤ toRd x.end_date + 1) →
      (∀ x, Inv x → Inv x.prior ∧ toRd x.prior.start_date + 1 ≤ toRd x.start_date
        ∧ toRd x.start_date ≤ toRd x.prior.end_date + 1) →
      ∃ n res, rangeContainingDate n r d = some res
        ∧ res.contains_date d
        ∧ ∃ res2, rangeContainingDate n res d = some res2
            ∧ res2.start_date = res.start_date ∧ res2.end_date = res.end_date)
    ∧ (∀ s e dd : Date, s.Valid → e.Valid → toRd s ≤ toRd e →
      ∃ n res, rangeContainingDate n (DateRange.new s e) dd = some res
        ∧ res.contains_date dd
        ∧ ∃ res2, rangeContainingDate n res dd = some res2
            ∧ res2.start_date = res.start_date ∧ res2.end_date = res.end_date) := by
  have hA : ∀ (Inv : DateRange → Prop) (r : DateRange) (d : Date),
      Inv (r.createNew r.start_date r.end_date) →
      (∀ x, Inv x → Inv x.next ∧ toRd x.end_date + 1 ≤ toRd x.next.end_date
        ∧ toRd x.next.start_date ≤ toRd x.end_date + 1) →
      (∀ x, Inv x → Inv x.prior ∧ toRd x.prior.start_date + 1 ≤ toRd x.start_date
        ∧ toRd x.start_date ≤ toRd x.prior.end_date + 1) →
      ∃ n res, rangeContainingDate n r d = some res
        ∧ res.contains_date d
        ∧ ∃ res2, rangeContainingDate n res d = some res2
            ∧ res2.start_date = res.start_date ∧ res2.end_date = res.end_date := by
    intro Inv r d hInv hnext hprior
    set x0 := r.createNew r.start_date r.end_date with hx0
    by_cases hc : x0.contains_date d
    · exact ⟨1, x0, rcdLoop_found 0 x0 d hc, hc, rcd_requery 0 x0 d hc⟩
    · rcases lt_or_le (toRd x0.end_date) (toRd d) with hgt | hle2
      · obtain ⟨hInv1, h1, h2⟩ := hnext x0 hInv
        obtain ⟨n, res, hrun, hres⟩ := rcd_forward d Inv hnext
          (toRd d - toRd x0.next.end_date).toNat x0.next hInv1 (by omega)
          (by have := Int.self_le_toNat (toRd d - toRd x0.next.end_date); omega)
        refine ⟨n + 2, res, ?_, hres, rcd_requery (n + 1) res d hres⟩
        show rcdLoop ((n + 1) + 1) x0 d = some res
        rw [rcdLoop_succ, if_neg hc, if_pos (show Date.lt x0.end_date d from by
          unfold Date.lt; omega)]
        exact hrun
      · have hlt : toRd d < toRd x0.start_date := by
          rw [contains_date_iff] at hc
          omega
        obtain ⟨hInv1, h1, h2⟩ := hprior x0 hInv
        obtain ⟨n, res, hrun, hres⟩ := rcd_backward d Inv hprior
          (toRd x0.prior.start_date - toRd d).toNat x0.prior hInv1 (by omega)
          (by have := Int.self_le_toNat (toRd x0.prior.start_date - toRd d); omega)
        refine ⟨n + 2, res, ?_, hres, rcd_requery (n + 1) res d hres⟩
        show rcdLoop ((n + 1) + 1) x0 d = some res
        rw [rcdLoop_succ, if_neg hc, if_neg (show ¬ Date.lt x0.end_date d from by
          unfold Date.lt; omega)]
        exact hrun
  refine ⟨hA, ?_⟩
  intro s e dd hvs hve hle
  exact hA
    (fun x => x.nav = none ∧ x.start_date.Valid ∧ x.end_date.Valid
      ∧ toRd x.start_date ≤ toRd x.end_date
      ∧ x.len = toRd x.end_date - toRd x.start_date + 1)
    (DateRange.new s e) dd ⟨rfl, hvs, hve, hle, rfl⟩
    (fun x hx => defaultInv_next x hx) (fun x hx => defaultInv_prior x hx)

/-- Witness for C1: the default-strategy week 2023-01-01..2023-01-07 and
the later date 2023-01-19. -/
theorem range_containing_date_witness :
    ∃ n res,
      rangeContainingDate n (DateRange.new ⟨2023, 1, 1⟩ ⟨2023, 1, 7⟩) ⟨2023, 1, 19⟩
        = some res
      ∧ res.contains_date ⟨2023, 1, 19⟩
      ∧ ∃ res2, rangeContainingDate n res ⟨2023, 1, 19⟩ = some res2
          ∧ res2.start_date = res.start_date ∧ res2.end_date = res.end_date :=
  range_containing_date_spec.2 ⟨2023, 1, 1⟩ ⟨2023, 1, 7⟩ ⟨2023, 1, 19⟩
    (by decide) (by decide) (by decide)

end DateRangeRs
